import Mathlib

/-!
Verification development for the `translate_pptx` pipeline.

The four Python stages are shallowly embedded as pure Lean functions:

* `build_text_map.py`  — extractor: walks slides / shapes / groups and emits
  a flat entry list (`build_text_map`, `walkList`, `record_runs`,
  `record_chart_text`).
* `export_text_array.py` — flattener (`load_texts`).
* `apply_translated_texts.py` — merge of translated values
  (`merge_translations`).
* `apply_text_map_to_pptx.py` — projector (`apply_text_map`,
  `resolve_shape_list`, `set_run_text`, `get_chart_nodes`, ...).

Modelling conventions:

* The python-pptx document object model is embedded as the inductive
  `Shape` tree plus `Slide` / `Presentation` structures.  A chart's backing
  part is addressed by partname: `Presentation.parts` is the package's part
  store mapping a partname to the ordered list of its `<a:t>` text nodes
  (each node modelled by its text).  `lxml` mutation of a node's `.text`
  becomes a functional update of that store; since python caches hold the
  very node objects of the tree, a cached node list always shows the
  current store contents, so the projector's cache is modelled as the list
  of partnames queried so far.
* Python `assert` failures, `KeyError` and `IndexError` all abort the run;
  fallible steps return `Except String`.
* JSON dict entries become the `Entry` structure; keys that a producer may
  omit (`text`, the container-specific sub-address fields) are `Option`s,
  `none` modelling an absent key.
* `record_chart_text` evaluates `chart_part._element.xpath(".//a:t")` once
  per chart shape; every such evaluation is logged (second component of the
  walk results), so the query behaviour itself is provable.
-/

/-- One run inside a paragraph; only its `text` attribute is ever read or
written by the pipeline. -/
structure Run where
  text : String
  deriving DecidableEq, Repr

/-- A paragraph: an ordered sequence of runs. -/
structure Paragraph where
  runs : List Run
  deriving DecidableEq, Repr

/-- A text frame: an ordered sequence of paragraphs. -/
structure TextFrame where
  paragraphs : List Paragraph
  deriving DecidableEq, Repr

/-- A table cell; the pipeline only touches its text frame. -/
structure TableCell where
  text_frame : TextFrame
  deriving DecidableEq, Repr

/-- A table row: its ordered cells. -/
structure TableRow where
  cells : List TableCell
  deriving DecidableEq, Repr

/-- A table.  `nCols` is `len(table.columns)` — the number of grid columns
of the underlying pptx table (python-pptx guarantees every row has exactly
`nCols` cells; `tablesOk` below states that invariant). -/
structure Table where
  nCols : Nat
  rows : List TableRow
  deriving DecidableEq, Repr

/-- The shape-type tag; the code only ever distinguishes `GROUP` from
everything else (`MSO_SHAPE_TYPE.GROUP` checks). -/
inductive ShapeType where
  | group
  | other (code : Nat)
  deriving DecidableEq, Repr

/-- Models `MSO_SHAPE_TYPE(shape.shape_type).name` (a pure metadata
string; only its determinism matters to the pipeline). -/
def shape_type_name : ShapeType → String
  | .group => "GROUP"
  | .other code => s!"TYPE_{code}"

/-- A shape.  The Python code probes `has_text_frame` / `has_table` /
`has_chart` independently and recurses into `shape.shapes` when the type is
GROUP, so all four capabilities are modelled as independent fields
(`none` / `[]` when absent).  `chart` holds the partname of the chart's
backing part. -/
inductive Shape where
  | mk (shape_id : Nat) (name : String) (shape_type : ShapeType)
       (text_frame : Option TextFrame) (table : Option Table)
       (chart : Option String) (children : List Shape)

mutual

/-- Decidable equality on shapes (the automatic derivation does not handle
the nested `List Shape` field). -/
def Shape.decEq : (a b : Shape) → Decidable (a = b)
  | .mk a1 a2 a3 a4 a5 a6 a7, .mk b1 b2 b3 b4 b5 b6 b7 =>
    if h1 : a1 = b1 then
      if h2 : a2 = b2 then
        if h3 : a3 = b3 then
          if h4 : a4 = b4 then
            if h5 : a5 = b5 then
              if h6 : a6 = b6 then
                match Shape.decEqList a7 b7 with
                | isTrue h7 => isTrue (by rw [h1, h2, h3, h4, h5, h6, h7])
                | isFalse h7 =>
                    isFalse (by
                      intro he; injection he with g1 g2 g3 g4 g5 g6 g7
                      exact h7 g7)
              else isFalse (by
                intro he; injection he with g1 g2 g3 g4 g5 g6 g7; exact h6 g6)
            else isFalse (by
              intro he; injection he with g1 g2 g3 g4 g5 g6 g7; exact h5 g5)
          else isFalse (by
            intro he; injection he with g1 g2 g3 g4 g5 g6 g7; exact h4 g4)
        else isFalse (by
          intro he; injection he with g1 g2 g3 g4 g5 g6 g7; exact h3 g3)
      else isFalse (by
        intro he; injection he with g1 g2 g3 g4 g5 g6 g7; exact h2 g2)
    else isFalse (by
      intro he; injection he with g1 g2 g3 g4 g5 g6 g7; exact h1 g1)

/-- Decidable equality on shape lists, mutually with `Shape.decEq`. -/
def Shape.decEqList : (a b : List Shape) → Decidable (a = b)
  | [], [] => isTrue rfl
  | [], _ :: _ => isFalse (by intro he; exact List.noConfusion he)
  | _ :: _, [] => isFalse (by intro he; exact List.noConfusion he)
  | x :: xs, y :: ys =>
    match Shape.decEq x y, Shape.decEqList xs ys with
    | isTrue h1, isTrue h2 => isTrue (by rw [h1, h2])
    | isFalse h1, _ =>
        isFalse (by intro he; injection he with g1 g2; exact h1 g1)
    | _, isFalse h2 =>
        isFalse (by intro he; injection he with g1 g2; exact h2 g2)

end

instance : DecidableEq Shape := Shape.decEq

instance : DecidableEq (List Shape) := Shape.decEqList

def Shape.shape_id : Shape → Nat
  | .mk v _ _ _ _ _ _ => v

def Shape.name : Shape → String
  | .mk _ v _ _ _ _ _ => v

def Shape.shape_type : Shape → ShapeType
  | .mk _ _ v _ _ _ _ => v

def Shape.text_frame : Shape → Option TextFrame
  | .mk _ _ _ v _ _ _ => v

def Shape.table : Shape → Option Table
  | .mk _ _ _ _ v _ _ => v

def Shape.chart : Shape → Option String
  | .mk _ _ _ _ _ v _ => v

def Shape.children : Shape → List Shape
  | .mk _ _ _ _ _ _ v => v

/-- Replace a shape's text frame (models in-place mutation of the frame's
runs reflected back into the tree). -/
def Shape.withTextFrame : Shape → TextFrame → Shape
  | .mk a b c _ e f g, tf => .mk a b c (some tf) e f g

/-- Replace a shape's table (models in-place mutation of a cell reflected
back into the tree). -/
def Shape.withTable : Shape → Table → Shape
  | .mk a b c d _ f g, t => .mk a b c d (some t) f g

/-- Replace a group's child list (models in-place mutation of a nested
shape reflected back into the tree). -/
def Shape.withChildren : Shape → List Shape → Shape
  | .mk a b c d e f _, ch => .mk a b c d e f ch

/-- A slide: its id, its layout name (`getattr(..., "name", None)`) and its
ordered top-level shapes. -/
structure Slide where
  slide_id : Nat
  slide_layout : Option String
  shapes : List Shape
  deriving DecidableEq

/-- A presentation: ordered slides plus the package's chart-part store
(partname ↦ ordered `<a:t>` node texts). -/
structure Presentation where
  slides : List Slide
  parts : List (String × List String)
  deriving DecidableEq

/-- Models `chart_part._element.xpath(".//a:t")`: the ordered text nodes of
the part named `pn` (empty when the partname is not in the package, a
situation python-pptx cannot produce). -/
def xpathNodes (p : Presentation) (pn : String) : List String :=
  (p.parts.lookup pn).getD []

/-- One entry of the text map.  Mirrors the JSON dict written by
`build_text_map.py`: the base fields are always present, the
container-specific sub-address fields and `text` model optional keys. -/
structure Entry where
  slide_index : Nat
  slide_id : Nat
  slide_layout : Option String
  shape_id : Nat
  shape_name : String
  shape_type : String
  shape_index_chain : List Nat
  shape_path : String
  container : String
  paragraph_index : Option Nat
  run_index : Option Nat
  table_row : Option Nat
  table_col : Option Nat
  chart_partname : Option String
  chart_text_index : Option Nat
  chart_xpath : Option String
  path : Option String
  text : Option String
  deriving DecidableEq, Repr

/-- The top-level text-map JSON object.  `entry_count` is an `Option`
because the projector tolerates its absence (`text_map.get("entry_count")`). -/
structure TextMap where
  source : String
  slide_count : Nat
  entry_count : Option Nat
  entries : List Entry
  deriving DecidableEq, Repr

/-- The `base_entry` dict built once per shape in `walk_shapes`. -/
structure BaseEntry where
  slide_index : Nat
  slide_id : Nat
  slide_layout : Option String
  shape_id : Nat
  shape_name : String
  shape_type : String
  shape_index_chain : List Nat
  shape_path : String
  deriving DecidableEq, Repr

/-- The `slide_meta` dict of `build_text_map`. -/
structure SlideMeta where
  slide_index : Nat
  slide_id : Nat
  slide_layout : Option String
  deriving DecidableEq, Repr

/-- Models `node.getroottree().getpath(node)` for the `chart_idx`-th text
node of part `pn`: given a fixed tree, `getpath` is a deterministic
function of the part and the node's position. -/
def chartXPath (pn : String) (ci : Nat) : String :=
  s!"{pn}//a:t[{ci}]"

/-- The entry dict assembled in `record_runs` (`dict(base_entry)` +
`extra_fields` + the run-level fields).  `extra` is the `extra_fields`
dict: `none` for text frames, `some (row, col)` for table cells. -/
def mkRunEntry (b : BaseEntry) (extra : Option (Nat × Nat)) (container : String)
    (pi ri : Nat) (path : String) (t : String) : Entry :=
  { slide_index := b.slide_index, slide_id := b.slide_id,
    slide_layout := b.slide_layout, shape_id := b.shape_id,
    shape_name := b.shape_name, shape_type := b.shape_type,
    shape_index_chain := b.shape_index_chain, shape_path := b.shape_path,
    container := container, paragraph_index := some pi, run_index := some ri,
    table_row := extra.map (fun x => x.1), table_col := extra.map (fun x => x.2),
    chart_partname := none, chart_text_index := none, chart_xpath := none,
    path := some path, text := some t }

/-- The entry dict assembled in `record_chart_text` (note: chart entries
carry no `path` key). -/
def mkChartEntry (b : BaseEntry) (pn : String) (ci : Nat) (t : String) : Entry :=
  { slide_index := b.slide_index, slide_id := b.slide_id,
    slide_layout := b.slide_layout, shape_id := b.shape_id,
    shape_name := b.shape_name, shape_type := b.shape_type,
    shape_index_chain := b.shape_index_chain, shape_path := b.shape_path,
    container := "chart_part", paragraph_index := none, run_index := none,
    table_row := none, table_col := none,
    chart_partname := some pn, chart_text_index := some ci,
    chart_xpath := some (chartXPath pn ci), path := none, text := some t }

/-- Inner loop of `record_runs`: `for run_idx, run in enumerate(para.runs,
start=1)`, skipping runs whose text is empty (`if not text: continue`). -/
def recordRunsOfPara (runs : List Run) (ri : Nat) (pi : Nat)
    (paraSegs : List String) (b : BaseEntry) (container : String)
    (extra : Option (Nat × Nat)) : List Entry :=
  match runs with
  | [] => []
  | r :: rest =>
      (if r.text = "" then []
       else [mkRunEntry b extra container pi ri
              (String.intercalate "." (paraSegs ++ [s!"run[{ri}]"])) r.text])
      ++ recordRunsOfPara rest (ri + 1) pi paraSegs b container extra

/-- Outer loop of `record_runs`: `for para_idx, para in
enumerate(text_frame.paragraphs, start=1)`. -/
def recordParas (paras : List Paragraph) (pi : Nat) (tfSegs : List String)
    (b : BaseEntry) (container : String) (extra : Option (Nat × Nat)) :
    List Entry :=
  match paras with
  | [] => []
  | para :: rest =>
      recordRunsOfPara para.runs 1 pi (tfSegs ++ [s!"paragraph[{pi}]"])
        b container extra
      ++ recordParas rest (pi + 1) tfSegs b container extra

/-- `record_runs` of `build_text_map.py`: emit one entry per non-empty run
of the text frame. -/
def record_runs (tf : TextFrame) (b : BaseEntry) (path_segments : List String)
    (container : String) (extra : Option (Nat × Nat)) : List Entry :=
  recordParas tf.paragraphs 1 (path_segments ++ [container]) b container extra

/-- Loop of `record_chart_text`: `for chart_idx, node in enumerate(nodes,
start=1)`, skipping empty nodes. -/
def chartEntries (nodes : List String) (ci : Nat) (b : BaseEntry)
    (pn : String) : List Entry :=
  match nodes with
  | [] => []
  | t :: rest =>
      (if t = "" then [] else [mkChartEntry b pn ci t])
      ++ chartEntries rest (ci + 1) b pn

/-- `record_chart_text` of `build_text_map.py`.  Returns the emitted
entries together with the xpath-query log of this call: the Python body
evaluates `chart_part._element.xpath(".//a:t")` exactly once whenever the
shape has a chart (no caching), hence one log element per chart shape. -/
def record_chart_text (p : Presentation) (s : Shape) (b : BaseEntry) :
    List Entry × List String :=
  match s.chart with
  | none => ([], [])
  | some pn => (chartEntries (xpathNodes p pn) 1 b pn, [pn])

/-- Cell loop of the table branch of `walk_shapes`:
`for col_idx, cell in enumerate(row.cells, start=1)`. -/
def tableCellsEntries (cells : List TableCell) (rowIdx colIdx : Nat)
    (tableSegs : List String) (b : BaseEntry) : List Entry :=
  match cells with
  | [] => []
  | cell :: rest =>
      record_runs cell.text_frame b
        (tableSegs ++ [s!"cell[{rowIdx},{colIdx}]"]) "table_cell"
        (some (rowIdx, colIdx))
      ++ tableCellsEntries rest rowIdx (colIdx + 1) tableSegs b

/-- Row loop of the table branch of `walk_shapes`:
`for row_idx, row in enumerate(shape.table.rows, start=1)`. -/
def tableRowsEntries (rows : List TableRow) (rowIdx : Nat)
    (tableSegs : List String) (b : BaseEntry) : List Entry :=
  match rows with
  | [] => []
  | row :: rest =>
      tableCellsEntries row.cells rowIdx 1 tableSegs b
      ++ tableRowsEntries rest (rowIdx + 1) tableSegs b

/-- The `base_entry` dict built at the top of the shape loop of
`walk_shapes`. -/
def mkBase (meta : SlideMeta) (sid : Nat) (snm : String) (stype : ShapeType)
    (shape_idx : Nat) (segs : List String) (chain : List Nat) : BaseEntry :=
  { slide_index := meta.slide_index, slide_id := meta.slide_id,
    slide_layout := meta.slide_layout, shape_id := sid,
    shape_name := snm, shape_type := shape_type_name stype,
    shape_index_chain := chain ++ [shape_idx],
    shape_path := String.intercalate "." (segs ++ [s!"shape[{shape_idx}]"]) }

mutual

/-- Per-shape body of `walk_shapes`: text-frame entries, then table
entries, then chart entries, then (for a GROUP) the recursive walk of the
children.  Second component: the chronological log of chart-part xpath
queries. -/
def walkShape (p : Presentation) (s : Shape) (shape_idx : Nat)
    (segs : List String) (chain : List Nat) (meta : SlideMeta) :
    List Entry × List String :=
  match s with
  | .mk sid snm stype tf tab ch children =>
    let shapeSegs := segs ++ [s!"shape[{shape_idx}]"]
    let chain' := chain ++ [shape_idx]
    let b : BaseEntry := mkBase meta sid snm stype shape_idx segs chain
    let tfEntries :=
      match tf with
      | none => []
      | some frame => record_runs frame b shapeSegs "text_frame" none
    let tabEntries :=
      match tab with
      | none => []
      | some t => tableRowsEntries t.rows 1 (shapeSegs ++ ["table"]) b
    let chartRes :=
      record_chart_text p (.mk sid snm stype tf tab ch children) b
    let groupRes :=
      if stype = ShapeType.group then
        walkList p children 1 shapeSegs chain' meta
      else ([], [])
    (tfEntries ++ tabEntries ++ chartRes.1 ++ groupRes.1,
     chartRes.2 ++ groupRes.2)

/-- Shape loop of `walk_shapes`: `for shape_idx, shape in
enumerate(shape_iter, start=1)`. -/
def walkList (p : Presentation) (shapes : List Shape) (idx : Nat)
    (segs : List String) (chain : List Nat) (meta : SlideMeta) :
    List Entry × List String :=
  match shapes with
  | [] => ([], [])
  | s :: rest =>
      let here := walkShape p s idx segs chain meta
      let there := walkList p rest (idx + 1) segs chain meta
      (here.1 ++ there.1, here.2 ++ there.2)

end

/-- Slide loop of `build_text_map`: `for slide_idx, slide in
enumerate(presentation.slides, start=1)`. -/
def slidesWalk (p : Presentation) (slides : List Slide) (idx : Nat) :
    List Entry × List String :=
  match slides with
  | [] => ([], [])
  | sl :: rest =>
      let meta : SlideMeta :=
        { slide_index := idx, slide_id := sl.slide_id,
          slide_layout := sl.slide_layout }
      let here := walkList p sl.shapes 1 [s!"slide[{idx}]"] [] meta
      let there := slidesWalk p rest (idx + 1)
      (here.1 ++ there.1, here.2 ++ there.2)

/-- `build_text_map` of `build_text_map.py` (`src` is `str(pptx_path)`). -/
def build_text_map (src : String) (p : Presentation) : TextMap :=
  let entries := (slidesWalk p p.slides 1).1
  { source := src, slide_count := p.slides.length,
    entry_count := some entries.length, entries := entries }

/-- The chronological log of `chart_part._element.xpath(".//a:t")`
evaluations performed by `build_text_map` (one element per evaluation,
holding the queried partname). -/
def build_text_map_queries (p : Presentation) : List String :=
  (slidesWalk p p.slides 1).2

/-- Decidable equality for `Except` results, used to evaluate the embedded
functions on concrete witnesses. -/
instance {e a : Type} [DecidableEq e] [DecidableEq a] : DecidableEq (Except e a) := fun x y =>
  match x, y with
  | .ok v, .ok w =>
    if h : v = w then isTrue (by rw [h])
    else isFalse (by intro he; injection he with g; exact h g)
  | .error v, .error w =>
    if h : v = w then isTrue (by rw [h])
    else isFalse (by intro he; injection he with g; exact h g)
  | .ok _, .error _ => isFalse (by intro he; exact Except.noConfusion he)
  | .error _, .ok _ => isFalse (by intro he; exact Except.noConfusion he)

/-- Loop of `load_texts` (`export_text_array.py`): 1-based enumeration of
the entries, `assert "text" in entry` before reading it. -/
def loadTextsFrom (entries : List Entry) (idx : Nat) :
    Except String (List String) :=
  match entries with
  | [] => .ok []
  | e :: rest =>
    match e.text with
    | none => .error s!"Entry {idx} missing text field"
    | some t => (loadTextsFrom rest (idx + 1)).map (fun ts => t :: ts)

/-- `load_texts` of `export_text_array.py`: the flattener, projecting a
text map down to its ordered list of text values. -/
def load_texts (m : TextMap) : Except String (List String) :=
  loadTextsFrom m.entries 1

/-- A JSON value position in the translated-values array: either a string
or anything else (`merge_translations` only distinguishes these two by its
`isinstance(text, str)` check). -/
inductive JVal where
  | str (s : String)
  | other
  deriving DecidableEq, Repr

/-- Predicate: the JSON value is a string. -/
def JVal.isStr : JVal → Prop
  | .str _ => True
  | .other => False

instance : DecidablePred JVal.isStr := fun v =>
  match v with
  | .str _ => isTrue trivial
  | .other => isFalse id

/-- Pair loop of `merge_translations`: `for entry, text in zip(entries,
translated_values)` with the `isinstance(text, str)` assert, building
`dict(entry)` with the `text` key replaced. -/
def mergeEntries (entries : List Entry) (vs : List JVal) :
    Except String (List Entry) :=
  match entries, vs with
  | [], _ => .ok []
  | _, [] => .ok []
  | e :: es, v :: vrest =>
    match v with
    | .str s =>
        (mergeEntries es vrest).map (fun rest => { e with text := some s } :: rest)
    | .other => .error "translated value must be a string"

/-- `merge_translations` of `apply_translated_texts.py`. -/
def merge_translations (m : TextMap) (vs : List JVal) :
    Except String TextMap :=
  if m.entries.length = vs.length then
    (mergeEntries m.entries vs).map (fun es =>
      { m with entries := es, entry_count := some es.length })
  else
    .error s!"translated array must match entries length; {m.entries.length} entries != {vs.length} translated items"

/-- `resolve_shape` of `apply_text_map_to_pptx.py`, written as recursion on
the chain (the Python loop carries `depth` only for the error message).
Each element is range-checked (`assert 1 <= idx <= len(shapes)`, split here
into the lower bound and a successful `get?`, which together are exactly
that check); every non-final element must resolve to a GROUP shape. -/
def resolve_shape_list (shapes : List Shape) (chain : List Nat)
    (depth : Nat) : Except String Shape :=
  match chain with
  | [] => .error "shape_index_chain must not be empty"
  | idx :: rest =>
    if idx < 1 then .error s!"Shape index {idx} out of range at depth {depth}"
    else
      match shapes.get? (idx - 1) with
      | none => .error s!"Shape index {idx} out of range at depth {depth}"
      | some target =>
        match rest with
        | [] => .ok target
        | _ :: _ =>
          if target.shape_type = ShapeType.group then
            resolve_shape_list target.children rest (depth + 1)
          else .error "Intermediate shape must be a group"

/-- `resolve_shape(slide, chain)` of the projector. -/
def resolve_shape (slide : Slide) (chain : List Nat) : Except String Shape :=
  resolve_shape_list slide.shapes chain 1

/-- `set_run_text` of the projector: range-check `paragraph_index` and
`run_index` (1-based), then set that run's text.  In-place mutation of the
run becomes a functional update of the frame. -/
def set_run_text (tf : TextFrame) (paragraph_index run_index : Nat)
    (text : String) : Except String TextFrame :=
  if paragraph_index < 1 then .error "paragraph_index out of range"
  else
    match tf.paragraphs.get? (paragraph_index - 1) with
    | none => .error "paragraph_index out of range"
    | some para =>
      if run_index < 1 then .error "run_index out of range"
      else
        match para.runs.get? (run_index - 1) with
        | none => .error "run_index out of range"
        | some _ =>
          .ok { paragraphs :=
                  tf.paragraphs.set (paragraph_index - 1)
                    { runs := para.runs.set (run_index - 1) { text := text } } }

/-- `apply_text_frame_entry` of the projector.  A missing dict key read by
`entry[...]` raises `KeyError`, modelled as an error result. -/
def apply_text_frame_entry (shape : Shape) (e : Entry) :
    Except String Shape :=
  match shape.text_frame with
  | none => .error "Shape lacks text_frame"
  | some tf =>
    match e.paragraph_index, e.run_index, e.text with
    | some pi, some ri, some t =>
        (set_run_text tf pi ri t).map (fun tf2 => shape.withTextFrame tf2)
    | _, _, _ => .error "KeyError"

/-- `apply_table_cell_entry` of the projector: `entry.get` for the table
indices (absent ⇒ "Missing table indices"), row range-checked against
`len(table.rows)`, column against `len(table.columns)`, then
`table.cell(row-1, col-1)` (an out-of-grid access raises, modelled as
`IndexError`) and `set_run_text` on the cell's frame. -/
def apply_table_cell_entry (shape : Shape) (e : Entry) :
    Except String Shape :=
  match shape.table with
  | none => .error "Shape lacks table"
  | some tbl =>
    match e.table_row, e.table_col with
    | some rowIdx, some colIdx =>
      if rowIdx < 1 then .error "table_row out of range"
      else
        match tbl.rows.get? (rowIdx - 1) with
        | none => .error "table_row out of range"
        | some row =>
          if 1 ≤ colIdx ∧ colIdx ≤ tbl.nCols then
            match row.cells.get? (colIdx - 1) with
            | none => .error "IndexError"
            | some cell =>
              match e.paragraph_index, e.run_index, e.text with
              | some pi, some ri, some t =>
                  (set_run_text cell.text_frame pi ri t).map (fun tf2 =>
                    let newCell : TableCell := { cell with text_frame := tf2 }
                    let newRow : TableRow :=
                      { cells := row.cells.set (colIdx - 1) newCell }
                    let newTbl : Table :=
                      { tbl with rows := tbl.rows.set (rowIdx - 1) newRow }
                    shape.withTable newTbl)
              | _, _, _ => .error "KeyError"
          else .error "table_col out of range"
    | _, _ => .error "Missing table indices"

/-- `get_chart_nodes` of the projector.  The cache maps a partname to the
node list returned by the first query; since those cached node objects are
the part's own live nodes, reading through the cache always yields the
part's current nodes, so the cache is modelled as the list of partnames
queried so far (which is also the chronological xpath-query log: a query
happens exactly when a partname is appended). -/
def get_chart_nodes (p : Presentation) (pn : String) (cache : List String) :
    List String × List String :=
  if pn ∈ cache then (xpathNodes p pn, cache)
  else (xpathNodes p pn, cache ++ [pn])

/-- Functional image of `nodes[chart_idx - 1].text = ...`: update node `i`
(0-based) of the first part named `pn`. -/
def updatePartsFirst (parts : List (String × List String)) (pn : String)
    (i : Nat) (t : String) : List (String × List String) :=
  match parts with
  | [] => []
  | (k, ns) :: rest =>
    if k = pn then (k, ns.set i t) :: rest
    else (k, ns) :: updatePartsFirst rest pn i t

/-- Set the text of node `i` (0-based) of chart part `pn`. -/
def setPartNode (p : Presentation) (pn : String) (i : Nat) (t : String) :
    Presentation :=
  { p with parts := updatePartsFirst p.parts pn i t }

/-- `apply_chart_entry` of the projector: hard identity check of the
chart's backing partname against the entry, per-part cached node lookup,
range check of `chart_text_index`, then the node-text assignment. -/
def apply_chart_entry (p : Presentation) (shape : Shape) (e : Entry)
    (cache : List String) : Except String (Presentation × List String) :=
  match shape.chart with
  | none => .error "Shape lacks chart"
  | some pn =>
    match e.chart_partname with
    | none => .error "KeyError"
    | some pnE =>
      if pn = pnE then
        let res := get_chart_nodes p pn cache
        match e.chart_text_index with
        | none => .error "KeyError"
        | some ci =>
          if 1 ≤ ci then
            if ci ≤ res.1.length then
              match e.text with
              | none => .error "KeyError"
              | some t => .ok (setPartNode p pn (ci - 1) t, res.2)
            else .error "chart_text_index out of range"
          else .error "Invalid chart_text_index"
      else .error "Chart part mismatch"

/-- Write a (functionally) mutated shape back into a shape tree at the
position named by an already-resolved chain; mirrors the fact that Python's
in-place mutation of the resolved shape is visible at exactly that tree
position. -/
def set_shape_at (shapes : List Shape) (chain : List Nat) (s : Shape) :
    List Shape :=
  match chain with
  | [] => shapes
  | [idx] => shapes.set (idx - 1) s
  | idx :: rest =>
    match shapes.get? (idx - 1) with
    | none => shapes
    | some target =>
        shapes.set (idx - 1)
          (target.withChildren (set_shape_at target.children rest s))

/-- Replace slide `slide_index` (1-based) of the presentation by the slide
whose shape tree has `newShape` written back at `chain`. -/
def setShapeInPres (p : Presentation) (slide_index : Nat) (slide : Slide)
    (chain : List Nat) (newShape : Shape) : Presentation :=
  let newSlide : Slide :=
    { slide with shapes := set_shape_at slide.shapes chain newShape }
  { p with slides := p.slides.set (slide_index - 1) newSlide }

/-- `apply_entry` of the projector: slide range check, shape-chain
resolution, then dispatch on the `container` string («any other value:
unsupported-container error»). -/
def apply_entry (p : Presentation) (e : Entry) (cache : List String) :
    Except String (Presentation × List String) :=
  if e.slide_index < 1 then .error "slide_index out of range"
  else
    match p.slides.get? (e.slide_index - 1) with
    | none => .error "slide_index out of range"
    | some slide =>
      match resolve_shape slide e.shape_index_chain with
      | .error msg => .error msg
      | .ok shape =>
        if e.container = "text_frame" then
          (apply_text_frame_entry shape e).map (fun sh2 =>
            (setShapeInPres p e.slide_index slide e.shape_index_chain sh2,
             cache))
        else if e.container = "table_cell" then
          (apply_table_cell_entry shape e).map (fun sh2 =>
            (setShapeInPres p e.slide_index slide e.shape_index_chain sh2,
             cache))
        else if e.container = "chart_part" then
          apply_chart_entry p shape e cache
        else .error s!"Unsupported container type: {e.container}"

/-- Entry loop of `apply_text_map`, threading the mutated presentation and
the chart cache. -/
def applyEntries (p : Presentation) (entries : List Entry)
    (cache : List String) : Except String (Presentation × List String) :=
  match entries with
  | [] => .ok (p, cache)
  | e :: rest =>
    match apply_entry p e cache with
    | .error msg => .error msg
    | .ok pc => applyEntries pc.1 rest pc.2

/-- Check of `apply_text_map` on the `entry_count` field: validated only
when present (`text_map.get("entry_count")`). -/
def entryCountCheck (m : TextMap) : Except String Unit :=
  match m.entry_count with
  | none => .ok ()
  | some k =>
    if k = m.entries.length then .ok ()
    else .error "entry_count does not match actual number of entries"

/-- `apply_text_map` of `apply_text_map_to_pptx.py`: validate
`entry_count`, apply every entry to the in-memory presentation, and only
then save.  An `.ok` result models the saved output document; an `.error`
result models an aborted run with no output file written. -/
def apply_text_map (p : Presentation) (m : TextMap) :
    Except String Presentation :=
  match entryCountCheck m with
  | .error msg => .error msg
  | .ok _ =>
    match applyEntries p m.entries [] with
    | .error msg => .error msg
    | .ok pc => .ok pc.1

/-- Specification-side characterisation of shape-chain resolution (from the
spec's words): every element is a 1-based in-range position, every
non-final element resolves to a GROUP shape and is descended into, and the
final element yields the target shape. -/
inductive ChainResolves : List Shape → List Nat → Shape → Prop where
  | last {shapes : List Shape} {i : Nat} {s : Shape} :
      1 ≤ i → shapes.get? (i - 1) = some s → ChainResolves shapes [i] s
  | step {shapes : List Shape} {i j : Nat} {rest : List Nat} {g s : Shape} :
      1 ≤ i → shapes.get? (i - 1) = some g →
      g.shape_type = ShapeType.group →
      ChainResolves g.children (j :: rest) s →
      ChainResolves shapes (i :: j :: rest) s

mutual

/-- Specification-side list of chart-part visits of one shape, in traversal
order: its own chart part (if any), then the visits of its children when it
is a GROUP. -/
def shapeChartVisits : Shape → List String
  | .mk _ _ stype _ _ ch children =>
    (match ch with
     | none => []
     | some pn => [pn])
    ++ (if stype = ShapeType.group then listChartVisits children else [])

/-- Specification-side chart-part visits of a shape sequence. -/
def listChartVisits : List Shape → List String
  | [] => []
  | s :: rest => shapeChartVisits s ++ listChartVisits rest

end

/-- Chart-part visits of a slide sequence. -/
def slidesChartVisits : List Slide → List String
  | [] => []
  | sl :: rest => listChartVisits sl.shapes ++ slidesChartVisits rest

/-- Specification-side list of the chart parts of every chart shape of the
presentation, one element per chart shape, in extraction traversal order. -/
def chartShapeVisitParts (p : Presentation) : List String :=
  slidesChartVisits p.slides

/-- Invariant of python-pptx tables: every row of a table's grid carries
exactly `len(table.columns)` cells. -/
def tableRectOk : Option Table → Bool
  | none => true
  | some t => t.rows.all (fun row => row.cells.length == t.nCols)

mutual

/-- All tables of this shape (and of its children) are rectangular. -/
def shapeTablesOk : Shape → Bool
  | .mk _ _ _ _ tab _ children => tableRectOk tab && shapesTablesOk children

/-- All tables of this shape sequence are rectangular. -/
def shapesTablesOk : List Shape → Bool
  | [] => true
  | s :: rest => shapeTablesOk s && shapesTablesOk rest

end

/-- All tables of the presentation are rectangular — the invariant the
python-pptx table grid guarantees for every real document. -/
def tablesOk (p : Presentation) : Bool :=
  p.slides.all (fun sl => shapesTablesOk sl.shapes)

/-- The target shape carries the text frame / paragraph / run addressed by
a `text_frame` entry, and the entry records that run's current text. -/
def TFGood (tgt : Shape) (e : Entry) : Prop :=
  e.container = "text_frame" ∧
  ∃ tf pj rj para run,
    tgt.text_frame = some tf ∧
    e.paragraph_index = some (pj + 1) ∧ e.run_index = some (rj + 1) ∧
    tf.paragraphs.get? pj = some para ∧ para.runs.get? rj = some run ∧
    e.text = some run.text

/-- The target shape carries the table / cell / paragraph / run addressed
by a `table_cell` entry, and the entry records that run's current text. -/
def TableGood (tgt : Shape) (e : Entry) : Prop :=
  e.container = "table_cell" ∧
  ∃ tbl rj cj row cell pj rjj para run,
    tgt.table = some tbl ∧
    e.table_row = some (rj + 1) ∧ e.table_col = some (cj + 1) ∧
    tbl.rows.get? rj = some row ∧ row.cells.get? cj = some cell ∧
    e.paragraph_index = some (pj + 1) ∧ e.run_index = some (rjj + 1) ∧
    cell.text_frame.paragraphs.get? pj = some para ∧
    para.runs.get? rjj = some run ∧
    e.text = some run.text

/-- The target shape carries the chart whose part the entry addresses, and
the entry records the current text of the addressed node of that part. -/
def ChartGood (p : Presentation) (tgt : Shape) (e : Entry) : Prop :=
  e.container = "chart_part" ∧
  ∃ pn cj t,
    tgt.chart = some pn ∧ e.chart_partname = some pn ∧
    e.chart_text_index = some (cj + 1) ∧
    (xpathNodes p pn).get? cj = some t ∧ e.text = some t

/-- The entry's container-specific sub-address resolves inside the target
shape to the text the entry records. -/
def ContainerGood (p : Presentation) (tgt : Shape) (e : Entry) : Prop :=
  TFGood tgt e ∨ TableGood tgt e ∨ ChartGood p tgt e

/-- The whole address of the entry resolves in `p` to a leaf whose current
text is the entry's text (and that text is non-empty). -/
def EntryGood (p : Presentation) (e : Entry) : Prop :=
  (∃ t, e.text = some t ∧ t ≠ "") ∧
  1 ≤ e.slide_index ∧
  ∃ slide tgt,
    p.slides.get? (e.slide_index - 1) = some slide ∧
    resolve_shape slide e.shape_index_chain = .ok tgt ∧
    ContainerGood p tgt e

/-- A small concrete presentation used to evaluate the embedded pipeline:
a slide with a text box (one empty and one non-empty run) and a group
containing a copy of it, and a slide with a 1×1 table and a chart shape. -/
def wTF : TextFrame :=
  { paragraphs := [{ runs := [{ text := "" }, { text := "Hello" }] }] }

def wShapeText : Shape := .mk 10 "Box" (.other 1) (some wTF) none none []

def wTable : Table :=
  { nCols := 1,
    rows := [{ cells := [{ text_frame :=
      { paragraphs := [{ runs := [{ text := "World" }] }] } }] }] }

def wShapeTable : Shape := .mk 11 "Tab" (.other 19) none (some wTable) none []

def wShapeChart : Shape :=
  .mk 12 "Ch" (.other 3) none none (some "/ppt/charts/chart1.xml") []

def wShapeChart2 : Shape :=
  .mk 13 "Ch2" (.other 3) none none (some "/ppt/charts/chart1.xml") []

def wGroup : Shape := .mk 14 "Grp" .group none none none [wShapeText]

def wSlide1 : Slide :=
  { slide_id := 256, slide_layout := some "Layout 1",
    shapes := [wShapeText, wGroup] }

def wSlide2 : Slide :=
  { slide_id := 257, slide_layout := none,
    shapes := [wShapeTable, wShapeChart] }

def wPres : Presentation :=
  { slides := [wSlide1, wSlide2],
    parts := [("/ppt/charts/chart1.xml", ["", "Cat A", "42"])] }

/-- A presentation whose single slide holds two distinct chart shapes that
both reference the same backing chart part. -/
def wPresDup : Presentation :=
  { slides := [{ slide_id := 300, slide_layout := none,
                 shapes := [wShapeChart, wShapeChart2] }],
    parts := [("/ppt/charts/chart1.xml", ["", "Cat A", "42"])] }

/-- A placeholder entry (used only as the default of a safe list access). -/
def entryDefault : Entry :=
  { slide_index := 0, slide_id := 0, slide_layout := none, shape_id := 0,
    shape_name := "", shape_type := "", shape_index_chain := [],
    shape_path := "", container := "", paragraph_index := none,
    run_index := none, table_row := none, table_col := none,
    chart_partname := none, chart_text_index := none, chart_xpath := none,
    path := none, text := none }

/-- The first entry extracted from `wPres`. -/
def wEntry : Entry := (build_text_map "deck.pptx" wPres).entries.getD 0 entryDefault

/-- A hand-written text-map entry as produced for a text-frame run. -/
def mEntry1 : Entry :=
  { slide_index := 1, slide_id := 256, slide_layout := some "L",
    shape_id := 1, shape_name := "Box", shape_type := "TYPE_1",
    shape_index_chain := [1], shape_path := "slide[1].shape[1]",
    container := "text_frame", paragraph_index := some 1,
    run_index := some 1, table_row := none, table_col := none,
    chart_partname := none, chart_text_index := none, chart_xpath := none,
    path := some "slide[1].shape[1].text_frame.paragraph[1].run[1]",
    text := some "Hello" }

/-- A second hand-written entry. -/
def mEntry2 : Entry := { mEntry1 with run_index := some 2, text := some "World" }

/-- A hand-written two-entry text map. -/
def wMap : TextMap :=
  { source := "deck.pptx", slide_count := 1, entry_count := some 2,
    entries := [mEntry1, mEntry2] }

/-- A one-entry variant of `wMap`. -/
def wMap1 : TextMap := { wMap with entry_count := some 1, entries := [mEntry1] }

/-- `wMap1` with `entry_count` hand-edited to mismatch `len(entries)`. -/
def wMapBadCount : TextMap := { wMap1 with entry_count := some 5 }

/-- `mEntry1` with its text swapped for a translated value. -/
def wEntryBonjour : Entry := { mEntry1 with text := some "Bonjour" }

/-- The merged map `merge_translations wMapBadCount ["Bonjour"]` produces. -/
def wMergedBad : TextMap :=
  { wMapBadCount with entries := [wEntryBonjour], entry_count := some 1 }

/-- An entry whose address cannot resolve (out-of-range slide). -/
def wBadEntry : Entry := { mEntry1 with slide_index := 99 }

/-- A map whose single entry fails to resolve against `wPres`. -/
def wBadMap : TextMap :=
  { source := "deck.pptx", slide_count := 2, entry_count := some 1,
    entries := [wBadEntry] }


theorem list_set_same {α : Type} {l : List α} {n : Nat} {a : α}
    (h : l.get? n = some a) : l.set n a = l := by
  induction l generalizing n with
  | nil => simp at h
  | cons x xs ih =>
    cases n with
    | zero => simp at h; simp [h]
    | succ m =>
      simp only [List.get?_cons_succ] at h
      simp [List.set_cons_succ, ih h]

theorem withTextFrame_self {s : Shape} {tf : TextFrame}
    (h : s.text_frame = some tf) : s.withTextFrame tf = s := by
  cases s with
  | mk a b c d e f g =>
    simp only [Shape.text_frame] at h
    simp [Shape.withTextFrame, h]

theorem withTable_self {s : Shape} {t : Table}
    (h : s.table = some t) : s.withTable t = s := by
  cases s with
  | mk a b c d e f g =>
    simp only [Shape.table] at h
    simp [Shape.withTable, h]

theorem withChildren_self (s : Shape) : s.withChildren s.children = s := by
  cases s with
  | mk a b c d e f g => simp [Shape.withChildren, Shape.children]

theorem resolve_depth_ok {chain : List Nat} {shapes : List Shape}
    {d d' : Nat} {t : Shape}
    (h : resolve_shape_list shapes chain d = .ok t) :
    resolve_shape_list shapes chain d' = .ok t := by
  induction chain generalizing shapes d d' with
  | nil => simp [resolve_shape_list] at h
  | cons i rest ih =>
    unfold resolve_shape_list at h ⊢
    by_cases hi : i < 1
    · simp [hi] at h
    · simp only [if_neg hi] at h ⊢
      cases hg : shapes.get? (i - 1) with
      | none => rw [hg] at h; exact absurd h (by simp)
      | some target =>
        rw [hg] at h
        dsimp only at h ⊢
        cases rest with
        | nil => exact h
        | cons j rest2 =>
          by_cases hgr : target.shape_type = ShapeType.group
          · simp only [if_pos hgr] at h ⊢
            exact ih h
          · simp [hgr] at h

theorem resolve_singleton {shapes : List Shape} {i : Nat} {s : Shape}
    (h1 : 1 ≤ i) (h2 : shapes.get? (i - 1) = some s) (d : Nat) :
    resolve_shape_list shapes [i] d = .ok s := by
  unfold resolve_shape_list
  rw [if_neg (by omega), h2]

theorem resolve_cons {shapes : List Shape} {i : Nat} {g s : Shape}
    {suffix : List Nat} {d : Nat}
    (h1 : 1 ≤ i) (h2 : shapes.get? (i - 1) = some g)
    (hg : g.shape_type = ShapeType.group) (hne : suffix ≠ [])
    (h : resolve_shape_list g.children suffix (d + 1) = .ok s) :
    resolve_shape_list shapes (i :: suffix) d = .ok s := by
  unfold resolve_shape_list
  rw [if_neg (by omega), h2]
  cases suffix with
  | nil => exact absurd rfl hne
  | cons j rest =>
    dsimp only
    rw [if_pos hg]
    exact h

theorem resolve_ok_chain_ne_nil {shapes : List Shape} {chain : List Nat}
    {d : Nat} {s : Shape}
    (h : resolve_shape_list shapes chain d = .ok s) : chain ≠ [] := by
  intro he; subst he; simp [resolve_shape_list] at h

theorem set_shape_at_resolve {chain : List Nat} {shapes : List Shape}
    {s : Shape} {d : Nat}
    (h : resolve_shape_list shapes chain d = .ok s) :
    set_shape_at shapes chain s = shapes := by
  induction chain generalizing shapes d with
  | nil => simp [resolve_shape_list] at h
  | cons i rest ih =>
    unfold resolve_shape_list at h
    by_cases hi : i < 1
    · simp [hi] at h
    · simp only [if_neg hi] at h
      cases hg : shapes.get? (i - 1) with
      | none => rw [hg] at h; exact absurd h (by simp)
      | some target =>
        rw [hg] at h
        dsimp only at h
        cases rest with
        | nil =>
          simp only [Except.ok.injEq] at h
          subst h
          simp [set_shape_at, list_set_same hg]
        | cons j rest2 =>
          by_cases hgr : target.shape_type = ShapeType.group
          · simp only [if_pos hgr] at h
            unfold set_shape_at
            rw [hg]
            dsimp only
            rw [ih h, withChildren_self, list_set_same hg]
          · simp [hgr] at h

theorem set_run_text_same {tf : TextFrame} {pj rj : Nat} {para : Paragraph}
    {run : Run} (hp : tf.paragraphs.get? pj = some para)
    (hr : para.runs.get? rj = some run) :
    set_run_text tf (pj + 1) (rj + 1) run.text = .ok tf := by
  unfold set_run_text
  rw [if_neg (by omega)]
  simp only [Nat.add_sub_cancel]
  rw [hp]
  dsimp only
  rw [if_neg (by omega), hr]
  dsimp only
  have hrun : ({ text := run.text } : Run) = run := rfl
  rw [hrun, list_set_same hr]
  have hpara : ({ runs := para.runs } : Paragraph) = para := rfl
  rw [hpara, list_set_same hp]

theorem lookup_update_same {parts : List (String × List String)}
    {pn : String} {ns : List String} {i : Nat} {t : String}
    (hl : parts.lookup pn = some ns) (hg : ns.get? i = some t) :
    updatePartsFirst parts pn i t = parts := by
  induction parts with
  | nil => simp [List.lookup] at hl
  | cons kv rest ih =>
    obtain ⟨k, ms⟩ := kv
    unfold List.lookup at hl
    unfold updatePartsFirst
    by_cases hk : k = pn
    · subst hk
      simp only [beq_self_eq_true] at hl
      simp only [Option.some.injEq] at hl
      subst hl
      rw [if_pos rfl, list_set_same hg]
    · have : (pn == k) = false := by
        simp [hk]
        intro he; exact hk he.symm
      rw [this] at hl
      rw [if_neg hk, ih hl]

theorem mem_recordRunsOfPara {runs : List Run} {k pi : Nat}
    {paraSegs : List String} {b : BaseEntry} {cont : String}
    {extra : Option (Nat × Nat)} {e : Entry} :
    e ∈ recordRunsOfPara runs k pi paraSegs b cont extra ↔
    ∃ j r, runs.get? j = some r ∧ r.text ≠ "" ∧
      e = mkRunEntry b extra cont pi (k + j)
            (String.intercalate "." (paraSegs ++ [s!"run[{k + j}]"])) r.text := by
  induction runs generalizing k with
  | nil => simp [recordRunsOfPara]
  | cons r rest ih =>
    unfold recordRunsOfPara
    rw [List.mem_append, ih]
    constructor
    · rintro (h0 | ⟨j, r2, hj, hne, he⟩)
      · by_cases hr : r.text = ""
        · simp [hr] at h0
        · simp only [if_neg hr, List.mem_singleton] at h0
          exact ⟨0, r, by simp, hr, by simpa using h0⟩
      · refine ⟨j + 1, r2, by simpa using hj, hne, ?_⟩
        have harr : k + 1 + j = k + (j + 1) := by omega
        rw [← harr]
        exact he
    · rintro ⟨j, r2, hj, hne, he⟩
      cases j with
      | zero =>
        simp only [List.get?_cons_zero, Option.some.injEq] at hj
        subst hj
        left
        rw [if_neg hne]
        simp only [List.mem_singleton]
        simpa using he
      | succ m =>
        right
        refine ⟨m, r2, by simpa using hj, hne, ?_⟩
        have harr : k + 1 + m = k + (m + 1) := by omega
        rw [harr]
        exact he

theorem mem_recordParas {paras : List Paragraph} {k : Nat}
    {tfSegs : List String} {b : BaseEntry} {cont : String}
    {extra : Option (Nat × Nat)} {e : Entry} :
    e ∈ recordParas paras k tfSegs b cont extra ↔
    ∃ pj para, paras.get? pj = some para ∧
      e ∈ recordRunsOfPara para.runs 1 (k + pj)
            (tfSegs ++ [s!"paragraph[{k + pj}]"]) b cont extra := by
  induction paras generalizing k with
  | nil => simp [recordParas]
  | cons para rest ih =>
    unfold recordParas
    rw [List.mem_append, ih]
    constructor
    · rintro (h0 | ⟨pj, p2, hp, hmem⟩)
      · exact ⟨0, para, by simp, by simpa using h0⟩
      · refine ⟨pj + 1, p2, by simpa using hp, ?_⟩
        have harr : k + 1 + pj = k + (pj + 1) := by omega
        rw [← harr]
        exact hmem
    · rintro ⟨pj, p2, hp, hmem⟩
      cases pj with
      | zero =>
        simp only [List.get?_cons_zero, Option.some.injEq] at hp
        subst hp
        left
        simpa using hmem
      | succ m =>
        right
        refine ⟨m, p2, by simpa using hp, ?_⟩
        have harr : k + 1 + m = k + (m + 1) := by omega
        rw [harr]
        exact hmem

theorem mem_record_runs {tf : TextFrame} {b : BaseEntry} {segs : List String}
    {cont : String} {extra : Option (Nat × Nat)} {e : Entry} :
    e ∈ record_runs tf b segs cont extra ↔
    ∃ pj para rj run,
      tf.paragraphs.get? pj = some para ∧ para.runs.get? rj = some run ∧
      run.text ≠ "" ∧
      e = mkRunEntry b extra cont (pj + 1) (rj + 1)
            (String.intercalate "."
              (segs ++ [cont] ++ [s!"paragraph[{pj + 1}]"] ++ [s!"run[{rj + 1}]"]))
            run.text := by
  unfold record_runs
  rw [mem_recordParas]
  constructor
  · rintro ⟨pj, para, hp, hmem⟩
    rw [mem_recordRunsOfPara] at hmem
    obtain ⟨rj, run, hr, hne, he⟩ := hmem
    refine ⟨pj, para, rj, run, hp, hr, hne, ?_⟩
    have h1 : 1 + pj = pj + 1 := by omega
    have h2 : 1 + rj = rj + 1 := by omega
    rw [h1, h2] at he
    simpa [List.append_assoc] using he
  · rintro ⟨pj, para, rj, run, hp, hr, hne, he⟩
    refine ⟨pj, para, hp, ?_⟩
    rw [mem_recordRunsOfPara]
    refine ⟨rj, run, hr, hne, ?_⟩
    have h1 : 1 + pj = pj + 1 := by omega
    have h2 : 1 + rj = rj + 1 := by omega
    rw [h1, h2]
    simpa [List.append_assoc] using he

theorem mem_chartEntries {nodes : List String} {k : Nat} {b : BaseEntry}
    {pn : String} {e : Entry} :
    e ∈ chartEntries nodes k b pn ↔
    ∃ j t, nodes.get? j = some t ∧ t ≠ "" ∧ e = mkChartEntry b pn (k + j) t := by
  induction nodes generalizing k with
  | nil => simp [chartEntries]
  | cons t rest ih =>
    unfold chartEntries
    rw [List.mem_append, ih]
    constructor
    · rintro (h0 | ⟨j, t2, hj, hne, he⟩)
      · by_cases ht : t = ""
        · simp [ht] at h0
        · simp only [if_neg ht, List.mem_singleton] at h0
          exact ⟨0, t, by simp, ht, by simpa using h0⟩
      · refine ⟨j + 1, t2, by simpa using hj, hne, ?_⟩
        have harr : k + 1 + j = k + (j + 1) := by omega
        rw [← harr]
        exact he
    · rintro ⟨j, t2, hj, hne, he⟩
      cases j with
      | zero =>
        simp only [List.get?_cons_zero, Option.some.injEq] at hj
        subst hj
        left
        rw [if_neg hne]
        simp only [List.mem_singleton]
        simpa using he
      | succ m =>
        right
        refine ⟨m, t2, by simpa using hj, hne, ?_⟩
        have harr : k + 1 + m = k + (m + 1) := by omega
        rw [harr]
        exact he

theorem mem_tableCellsEntries {cells : List TableCell} {rowIdx k : Nat}
    {tableSegs : List String} {b : BaseEntry} {e : Entry} :
    e ∈ tableCellsEntries cells rowIdx k tableSegs b ↔
    ∃ cj cell, cells.get? cj = some cell ∧
      e ∈ record_runs cell.text_frame b
            (tableSegs ++ [s!"cell[{rowIdx},{k + cj}]"]) "table_cell"
            (some (rowIdx, k + cj)) := by
  induction cells generalizing k with
  | nil => simp [tableCellsEntries]
  | cons cell rest ih =>
    unfold tableCellsEntries
    rw [List.mem_append, ih]
    constructor
    · rintro (h0 | ⟨cj, c2, hc, hmem⟩)
      · exact ⟨0, cell, by simp, by simpa using h0⟩
      · refine ⟨cj + 1, c2, by simpa using hc, ?_⟩
        have harr : k + 1 + cj = k + (cj + 1) := by omega
        rw [← harr]
        exact hmem
    · rintro ⟨cj, c2, hc, hmem⟩
      cases cj with
      | zero =>
        simp only [List.get?_cons_zero, Option.some.injEq] at hc
        subst hc
        left
        simpa using hmem
      | succ m =>
        right
        refine ⟨m, c2, by simpa using hc, ?_⟩
        have harr : k + 1 + m = k + (m + 1) := by omega
        rw [harr]
        exact hmem

theorem mem_tableRowsEntries {rows : List TableRow} {k : Nat}
    {tableSegs : List String} {b : BaseEntry} {e : Entry} :
    e ∈ tableRowsEntries rows k tableSegs b ↔
    ∃ rj row, rows.get? rj = some row ∧
      e ∈ tableCellsEntries row.cells (k + rj) 1 tableSegs b := by
  induction rows generalizing k with
  | nil => simp [tableRowsEntries]
  | cons row rest ih =>
    unfold tableRowsEntries
    rw [List.mem_append, ih]
    constructor
    · rintro (h0 | ⟨rj, r2, hr, hmem⟩)
      · exact ⟨0, row, by simp, by simpa using h0⟩
      · refine ⟨rj + 1, r2, by simpa using hr, ?_⟩
        have harr : k + 1 + rj = k + (rj + 1) := by omega
        rw [← harr]
        exact hmem
    · rintro ⟨rj, r2, hr, hmem⟩
      cases rj with
      | zero =>
        simp only [List.get?_cons_zero, Option.some.injEq] at hr
        subst hr
        left
        simpa using hmem
      | succ m =>
        right
        refine ⟨m, r2, by simpa using hr, ?_⟩
        have harr : k + 1 + m = k + (m + 1) := by omega
        rw [harr]
        exact hmem

theorem mem_walkShape {p : Presentation} {sid : Nat} {snm : String}
    {stype : ShapeType} {tf : Option TextFrame} {tab : Option Table}
    {ch : Option String} {children : List Shape} {idx : Nat}
    {segs : List String} {chain : List Nat} {meta : SlideMeta} {e : Entry} :
    e ∈ (walkShape p (.mk sid snm stype tf tab ch children) idx segs chain meta).1 ↔
    ((∃ frame, tf = some frame ∧
        e ∈ record_runs frame (mkBase meta sid snm stype idx segs chain)
              (segs ++ [s!"shape[{idx}]"]) "text_frame" none) ∨
     (∃ t, tab = some t ∧
        e ∈ tableRowsEntries t.rows 1 (segs ++ [s!"shape[{idx}]"] ++ ["table"])
              (mkBase meta sid snm stype idx segs chain)) ∨
     (∃ pn, ch = some pn ∧
        e ∈ chartEntries (xpathNodes p pn) 1
              (mkBase meta sid snm stype idx segs chain) pn) ∨
     (stype = ShapeType.group ∧
        e ∈ (walkList p children 1 (segs ++ [s!"shape[{idx}]"])
              (chain ++ [idx]) meta).1)) := by
  unfold walkShape
  dsimp only
  unfold record_chart_text
  simp only [Shape.chart]
  cases tf with
  | none =>
    cases tab with
    | none =>
      cases ch with
      | none =>
        by_cases hg : stype = ShapeType.group
        · simp [hg, List.append_assoc]
        · simp [hg]
      | some pn =>
        by_cases hg : stype = ShapeType.group
        · simp [hg, List.append_assoc]
        · simp [hg]
    | some t =>
      cases ch with
      | none =>
        by_cases hg : stype = ShapeType.group
        · simp [hg, List.append_assoc]
        · simp [hg, List.append_assoc]
      | some pn =>
        by_cases hg : stype = ShapeType.group
        · simp [hg, List.append_assoc]
        · simp [hg, List.append_assoc]
  | some frame =>
    cases tab with
    | none =>
      cases ch with
      | none =>
        by_cases hg : stype = ShapeType.group
        · simp [hg, List.append_assoc]
        · simp [hg]
      | some pn =>
        by_cases hg : stype = ShapeType.group
        · simp [hg, List.append_assoc]
        · simp [hg]
    | some t =>
      cases ch with
      | none =>
        by_cases hg : stype = ShapeType.group
        · simp [hg, List.append_assoc]
        · simp [hg, List.append_assoc]
      | some pn =>
        by_cases hg : stype = ShapeType.group
        · simp [hg, List.append_assoc]
        · simp [hg, List.append_assoc]

theorem mem_walkList {p : Presentation} {shapes : List Shape} {idx : Nat}
    {segs : List String} {chain : List Nat} {meta : SlideMeta} {e : Entry} :
    e ∈ (walkList p shapes idx segs chain meta).1 ↔
    ∃ j s, shapes.get? j = some s ∧
      e ∈ (walkShape p s (idx + j) segs chain meta).1 := by
  induction shapes generalizing idx with
  | nil => simp [walkList]
  | cons s rest ih =>
    unfold walkList
    dsimp only
    rw [List.mem_append, ih]
    constructor
    · rintro (h0 | ⟨j, s2, hj, hmem⟩)
      · exact ⟨0, s, by simp, by simpa using h0⟩
      · refine ⟨j + 1, s2, by simpa using hj, ?_⟩
        have harr : idx + 1 + j = idx + (j + 1) := by omega
        rw [← harr]
        exact hmem
    · rintro ⟨j, s2, hj, hmem⟩
      cases j with
      | zero =>
        simp only [List.get?_cons_zero, Option.some.injEq] at hj
        subst hj
        left
        simpa using hmem
      | succ m =>
        right
        refine ⟨m, s2, by simpa using hj, ?_⟩
        have harr : idx + 1 + m = idx + (m + 1) := by omega
        rw [harr]
        exact hmem

theorem mem_slidesWalk {p : Presentation} {slides : List Slide} {idx : Nat}
    {e : Entry} :
    e ∈ (slidesWalk p slides idx).1 ↔
    ∃ j sl, slides.get? j = some sl ∧
      e ∈ (walkList p sl.shapes 1 [s!"slide[{idx + j}]"] []
            { slide_index := idx + j, slide_id := sl.slide_id,
              slide_layout := sl.slide_layout }).1 := by
  induction slides generalizing idx with
  | nil => simp [slidesWalk]
  | cons sl rest ih =>
    unfold slidesWalk
    dsimp only
    rw [List.mem_append, ih]
    constructor
    · rintro (h0 | ⟨j, sl2, hj, hmem⟩)
      · exact ⟨0, sl, by simp, by simpa using h0⟩
      · refine ⟨j + 1, sl2, by simpa using hj, ?_⟩
        have harr : idx + 1 + j = idx + (j + 1) := by omega
        rw [← harr]
        exact hmem
    · rintro ⟨j, sl2, hj, hmem⟩
      cases j with
      | zero =>
        simp only [List.get?_cons_zero, Option.some.injEq] at hj
        subst hj
        left
        simpa using hmem
      | succ m =>
        right
        refine ⟨m, sl2, by simpa using hj, ?_⟩
        have harr : idx + 1 + m = idx + (m + 1) := by omega
        rw [harr]
        exact hmem

theorem sizeOf_children_lt (s : Shape) : sizeOf s.children < sizeOf s := by
  cases s with
  | mk a b c d e f g =>
    simp [Shape.children]

mutual

/-- Every entry emitted for one shape (and its nested group content)
addresses, in `p`, the very leaf it was read from. -/
theorem walkShape_good (p : Presentation) (slide : Slide) (s : Shape)
    (idx : Nat) (segs : List String) (chain : List Nat) (meta : SlideMeta)
    (hs1 : 1 ≤ meta.slide_index)
    (hslide : p.slides.get? (meta.slide_index - 1) = some slide)
    (hself : resolve_shape_list slide.shapes (chain ++ [idx]) 1 = .ok s)
    (hsub : s.shape_type = ShapeType.group →
      ∀ suffix t, suffix ≠ [] →
        resolve_shape_list s.children suffix 1 = .ok t →
        resolve_shape_list slide.shapes ((chain ++ [idx]) ++ suffix) 1 = .ok t) :
    ∀ e, e ∈ (walkShape p s idx segs chain meta).1 → EntryGood p e := by
  have hrec : s.shape_type = ShapeType.group →
      ∀ e, e ∈ (walkList p s.children 1 (segs ++ [s!"shape[{idx}]"])
            (chain ++ [idx]) meta).1 → EntryGood p e := by
    intro hg e he
    refine walkList_good p slide s.children s.children 1
      (segs ++ [s!"shape[{idx}]"]) (chain ++ [idx]) meta hs1 hslide
      (by omega) (fun j => by simp)
      (fun suffix t hne hres => hsub hg suffix t hne hres) e he
  obtain ⟨sid, snm, stype, tf, tab, ch, children⟩ := s
  intro e he
  rw [mem_walkShape] at he
  rcases he with ⟨frame, htf, hmem⟩ | ⟨t, htab, hmem⟩ | ⟨pn, hch, hmem⟩ | ⟨hg, hmem⟩
  · rw [mem_record_runs] at hmem
    obtain ⟨pj, para, rj, run, hp, hr, hne, hee⟩ := hmem
    subst hee
    refine ⟨⟨run.text, by simp [mkRunEntry], hne⟩,
            by simp only [mkRunEntry, mkBase]; exact hs1,
            slide, Shape.mk sid snm stype tf tab ch children,
            by simp only [mkRunEntry, mkBase]; exact hslide,
            by simp only [mkRunEntry, mkBase, resolve_shape]; exact hself,
            Or.inl ?_⟩
    refine ⟨by simp [mkRunEntry], frame, pj, rj, para, run,
            by simp [Shape.text_frame, htf],
            by simp [mkRunEntry], by simp [mkRunEntry], hp, hr,
            by simp [mkRunEntry]⟩
  · rw [mem_tableRowsEntries] at hmem
    obtain ⟨rj, row, hrow, hmem⟩ := hmem
    rw [mem_tableCellsEntries] at hmem
    obtain ⟨cj, cell, hcell, hmem⟩ := hmem
    rw [mem_record_runs] at hmem
    obtain ⟨pj, para, rjj, run, hp, hr, hne, hee⟩ := hmem
    subst hee
    refine ⟨⟨run.text, by simp [mkRunEntry], hne⟩,
            by simp only [mkRunEntry, mkBase]; exact hs1,
            slide, Shape.mk sid snm stype tf tab ch children,
            by simp only [mkRunEntry, mkBase]; exact hslide,
            by simp only [mkRunEntry, mkBase, resolve_shape]; exact hself,
            Or.inr (Or.inl ?_)⟩
    refine ⟨by simp [mkRunEntry], t, rj, cj, row, cell, pj, rjj, para, run,
            by simp [Shape.table, htab],
            by simp [mkRunEntry, Nat.add_comm 1 rj],
            by simp [mkRunEntry, Nat.add_comm 1 cj],
            by simpa [Nat.add_comm 1 rj] using hrow,
            by simpa [Nat.add_comm 1 cj] using hcell,
            by simp [mkRunEntry], by simp [mkRunEntry], hp, hr,
            by simp [mkRunEntry]⟩
  · rw [mem_chartEntries] at hmem
    obtain ⟨j, t, hj, hne, hee⟩ := hmem
    subst hee
    refine ⟨⟨t, by simp [mkChartEntry], hne⟩,
            by simp only [mkChartEntry, mkBase]; exact hs1,
            slide, Shape.mk sid snm stype tf tab ch children,
            by simp only [mkChartEntry, mkBase]; exact hslide,
            by simp only [mkChartEntry, mkBase, resolve_shape]; exact hself,
            Or.inr (Or.inr ?_)⟩
    refine ⟨by simp [mkChartEntry], pn, j, t,
            by simp [Shape.chart, hch],
            by simp [mkChartEntry],
            by simp [mkChartEntry, Nat.add_comm 1 j],
            hj, by simp [mkChartEntry]⟩
  · have hgr : (Shape.mk sid snm stype tf tab ch children).shape_type =
        ShapeType.group := by simp [Shape.shape_type, hg]
    have hrec2 := hrec hgr
    simp only [Shape.children] at hrec2
    exact hrec2 e hmem
termination_by sizeOf s
decreasing_by
  simp_wf
  exact sizeOf_children_lt s

/-- Every entry emitted by the shape loop addresses, in `p`, the very leaf
it was read from.  `orig` is the full sibling sequence at this level;
`shapes` is its remaining tail, starting at 1-based position `idx`. -/
theorem walkList_good (p : Presentation) (slide : Slide)
    (orig shapes : List Shape) (idx : Nat) (segs : List String)
    (chain : List Nat) (meta : SlideMeta)
    (hs1 : 1 ≤ meta.slide_index)
    (hslide : p.slides.get? (meta.slide_index - 1) = some slide)
    (hidx : 1 ≤ idx)
    (hoff : ∀ j, shapes.get? j = orig.get? (idx - 1 + j))
    (hinv : ∀ suffix t, suffix ≠ [] →
      resolve_shape_list orig suffix 1 = .ok t →
      resolve_shape_list slide.shapes (chain ++ suffix) 1 = .ok t) :
    ∀ e, e ∈ (walkList p shapes idx segs chain meta).1 → EntryGood p e := by
  intro e he
  rw [mem_walkList] at he
  obtain ⟨j, s, hj, hmem⟩ := he
  have horig : orig.get? (idx + j - 1) = some s := by
    have hx := hoff j
    rw [hj] at hx
    rw [show idx + j - 1 = idx - 1 + j by omega]
    exact hx.symm
  refine walkShape_good p slide s (idx + j) segs chain meta hs1 hslide
    (hinv [idx + j] s (by simp) (resolve_singleton (by omega) horig 1))
    (fun hg suffix t hne hres => ?_) e hmem
  have h2 : resolve_shape_list s.children suffix 2 = .ok t :=
    resolve_depth_ok hres
  have hcons : resolve_shape_list orig ((idx + j) :: suffix) 1 = .ok t :=
    resolve_cons (by omega) horig hg hne h2
  have hdone := hinv ((idx + j) :: suffix) t (by simp) hcons
  simpa [List.append_assoc] using hdone
termination_by sizeOf shapes
decreasing_by
  simp_wf
  have hmem2 : s ∈ shapes := List.get?_mem hj
  exact List.sizeOf_lt_of_mem hmem2

end

/-- Every entry produced by extraction addresses, in the source
presentation, the very leaf it was read from. -/
theorem build_text_map_good {src : String} {p : Presentation} {e : Entry}
    (he : e ∈ (build_text_map src p).entries) : EntryGood p e := by
  unfold build_text_map at he
  dsimp only at he
  rw [mem_slidesWalk] at he
  obtain ⟨j, sl, hj, hmem⟩ := he
  refine walkList_good p sl sl.shapes sl.shapes 1 [s!"slide[{1 + j}]"] []
    { slide_index := 1 + j, slide_id := sl.slide_id,
      slide_layout := sl.slide_layout }
    (by simp) ?_ (by omega) (fun j2 => by simp)
    (fun suffix t hne hres => by simpa using hres) e hmem
  simpa using hj

theorem shapeTablesOk_eq (s : Shape) :
    shapeTablesOk s = (tableRectOk s.table && shapesTablesOk s.children) := by
  cases s with
  | mk a b c d e f g => rfl

theorem shapesTablesOk_mem {shapes : List Shape} {x : Shape}
    (hall : shapesTablesOk shapes = true) (hx : x ∈ shapes) :
    shapeTablesOk x = true := by
  induction shapes with
  | nil => simp at hx
  | cons s rest ih =>
    unfold shapesTablesOk at hall
    rw [Bool.and_eq_true] at hall
    rcases List.mem_cons.mp hx with hx | hx
    · subst hx; exact hall.1
    · exact ih hall.2 hx

theorem resolve_preserves_tablesOk {chain : List Nat} {shapes : List Shape}
    {d : Nat} {s : Shape}
    (hok : shapesTablesOk shapes = true)
    (h : resolve_shape_list shapes chain d = .ok s) :
    shapeTablesOk s = true := by
  induction chain generalizing shapes d with
  | nil => simp [resolve_shape_list] at h
  | cons i rest ih =>
    unfold resolve_shape_list at h
    by_cases hi : i < 1
    · simp [hi] at h
    · simp only [if_neg hi] at h
      cases hg : shapes.get? (i - 1) with
      | none => rw [hg] at h; exact absurd h (by simp)
      | some target =>
        rw [hg] at h
        dsimp only at h
        have htg : shapeTablesOk target = true :=
          shapesTablesOk_mem hok (List.get?_mem hg)
        cases rest with
        | nil =>
          simp only [Except.ok.injEq] at h
          subst h
          exact htg
        | cons j rest2 =>
          by_cases hgr : target.shape_type = ShapeType.group
          · simp only [if_pos hgr] at h
            rw [shapeTablesOk_eq, Bool.and_eq_true] at htg
            exact ih htg.2 h
          · simp [hgr] at h

theorem tablesOk_slide {p : Presentation} {slide : Slide}
    (h : tablesOk p = true) (hm : slide ∈ p.slides) :
    shapesTablesOk slide.shapes = true := by
  unfold tablesOk at h
  rw [List.all_eq_true] at h
  exact h slide hm

/-- Applying an entry that addresses a leaf whose current text equals the
entry's text leaves the presentation unchanged and succeeds. -/
theorem apply_entry_good {p : Presentation} {e : Entry}
    (hg : EntryGood p e) (hwf : tablesOk p = true) (c : List String) :
    ∃ c2, apply_entry p e c = .ok (p, c2) := by
  obtain ⟨⟨tx, htx, htxne⟩, hs1, slide, tgt, hslide, hres, hcont⟩ := hg
  unfold apply_entry
  rw [if_neg (by omega), hslide]
  dsimp only
  rw [hres]
  dsimp only
  rcases hcont with ⟨hcon, tf, pj, rj, para, run, htf, hpi, hri, hp, hr, htext⟩ |
    ⟨hcon, tbl, rj, cj, row, cell, pj, rjj, para, run, htab, hrow, hcol,
      hrowg, hcellg, hpi, hri, hp, hr, htext⟩ |
    ⟨hcon, pn, cj, t, hch, hpn, hci, hnode, htext⟩
  · rw [if_pos hcon]
    have happ : apply_text_frame_entry tgt e = .ok tgt := by
      unfold apply_text_frame_entry
      rw [htf]
      dsimp only
      rw [hpi, hri, htext]
      dsimp only
      rw [set_run_text_same hp hr]
      dsimp only [Except.map]
      rw [withTextFrame_self htf]
    rw [happ]
    dsimp only [Except.map]
    refine ⟨c, ?_⟩
    have hsame : setShapeInPres p e.slide_index slide e.shape_index_chain tgt = p := by
      unfold setShapeInPres
      rw [set_shape_at_resolve (show resolve_shape_list slide.shapes
            e.shape_index_chain 1 = .ok tgt from hres)]
      have hsl : ({ slide with shapes := slide.shapes } : Slide) = slide := rfl
      rw [hsl]
      dsimp only
      rw [list_set_same hslide]
    rw [hsame]
  · rw [if_neg (by rw [hcon]; decide), if_pos hcon]
    have hcolbound : cj + 1 ≤ tbl.nCols := by
      have hmem : slide ∈ p.slides := List.get?_mem hslide
      have hsh : shapesTablesOk slide.shapes = true := tablesOk_slide hwf hmem
      have htt : shapeTablesOk tgt = true :=
        resolve_preserves_tablesOk hsh hres
      rw [shapeTablesOk_eq, Bool.and_eq_true] at htt
      have hrect := htt.1
      rw [htab] at hrect
      unfold tableRectOk at hrect
      rw [List.all_eq_true] at hrect
      have hrmem : row ∈ tbl.rows := List.get?_mem hrowg
      have hlen := hrect row hrmem
      rw [beq_iff_eq] at hlen
      have hclt : cj < row.cells.length :=
        (List.get?_eq_some.mp hcellg).1
      omega
    have happ : apply_table_cell_entry tgt e = .ok tgt := by
      unfold apply_table_cell_entry
      rw [htab]
      dsimp only
      rw [hrow, hcol]
      dsimp only
      rw [if_neg (by omega)]
      simp only [Nat.add_sub_cancel]
      rw [hrowg]
      dsimp only
      rw [if_pos (by constructor <;> omega)]
      rw [hcellg]
      dsimp only
      rw [hpi, hri, htext]
      dsimp only
      rw [set_run_text_same hp hr]
      dsimp only [Except.map]
      have hcell2 : ({ cell with text_frame := cell.text_frame } : TableCell) = cell := rfl
      rw [hcell2, list_set_same hcellg]
      have hrow2 : ({ cells := row.cells } : TableRow) = row := rfl
      rw [hrow2, list_set_same hrowg]
      have htbl2 : ({ tbl with rows := tbl.rows } : Table) = tbl := rfl
      rw [htbl2, withTable_self htab]
    rw [happ]
    dsimp only [Except.map]
    refine ⟨c, ?_⟩
    have hsame : setShapeInPres p e.slide_index slide e.shape_index_chain tgt = p := by
      unfold setShapeInPres
      rw [set_shape_at_resolve (show resolve_shape_list slide.shapes
            e.shape_index_chain 1 = .ok tgt from hres)]
      have hsl : ({ slide with shapes := slide.shapes } : Slide) = slide := rfl
      rw [hsl]
      dsimp only
      rw [list_set_same hslide]
    rw [hsame]
  · rw [if_neg (by rw [hcon]; decide), if_neg (by rw [hcon]; decide),
        if_pos hcon]
    unfold apply_chart_entry
    rw [hch]
    dsimp only
    rw [hpn]
    dsimp only
    rw [if_pos rfl, hci]
    dsimp only
    rw [if_pos (by omega)]
    have hclt : cj < (xpathNodes p pn).length :=
      (List.get?_eq_some.mp hnode).1
    have hlen1 : (get_chart_nodes p pn c).1 = xpathNodes p pn := by
      unfold get_chart_nodes
      by_cases hin : pn ∈ c
      · rw [if_pos hin]
      · rw [if_neg hin]
    rw [hlen1, if_pos (by omega), htext]
    dsimp only
    simp only [Nat.add_sub_cancel]
    have hsp : setPartNode p pn cj t = p := by
      unfold setPartNode
      cases hlk : p.parts.lookup pn with
      | none =>
        exfalso
        have : xpathNodes p pn = [] := by
          unfold xpathNodes
          rw [hlk]
          rfl
        rw [this] at hnode
        simp at hnode
      | some ns =>
        have hxn : xpathNodes p pn = ns := by
          unfold xpathNodes
          rw [hlk]
          rfl
        rw [hxn] at hnode
        rw [lookup_update_same hlk hnode]
    rw [hsp]
    exact ⟨(get_chart_nodes p pn c).2, rfl⟩

/-- Folding the projector's entry loop over entries that all re-apply a
leaf's own text succeeds and leaves the presentation unchanged. -/
theorem applyEntries_good {p : Presentation} {entries : List Entry}
    (hall : ∀ e ∈ entries, EntryGood p e) (hwf : tablesOk p = true) :
    ∀ c, ∃ c2, applyEntries p entries c = .ok (p, c2) := by
  induction entries with
  | nil => intro c; exact ⟨c, rfl⟩
  | cons e rest ih =>
    intro c
    obtain ⟨c2, happ⟩ := apply_entry_good (hall e (by simp)) hwf c
    obtain ⟨c3, hrest⟩ := ih (fun x hx => hall x (by simp [hx])) c2
    refine ⟨c3, ?_⟩
    unfold applyEntries
    rw [happ]
    exact hrest

theorem loadTextsFrom_ok {entries : List Entry} {i : Nat} {ts : List String}
    (h : loadTextsFrom entries i = .ok ts) :
    entries.map Entry.text = ts.map some := by
  induction entries generalizing i ts with
  | nil =>
    unfold loadTextsFrom at h
    simp only [Except.ok.injEq] at h
    subst h
    simp
  | cons e rest ih =>
    unfold loadTextsFrom at h
    cases hx : e.text with
    | none => rw [hx] at h; simp at h
    | some t =>
      rw [hx] at h
      dsimp only at h
      cases hr : loadTextsFrom rest (i + 1) with
      | error msg => rw [hr] at h; simp [Except.map] at h
      | ok ts2 =>
        rw [hr] at h
        simp only [Except.map, Except.ok.injEq] at h
        subst h
        simp [hx, ih hr]

theorem loadTextsFrom_some {entries : List Entry}
    (h : ∀ e ∈ entries, ∃ t, e.text = some t) (i : Nat) :
    ∃ ts, loadTextsFrom entries i = .ok ts := by
  induction entries generalizing i with
  | nil => exact ⟨[], rfl⟩
  | cons e rest ih =>
    obtain ⟨t, ht⟩ := h e (by simp)
    obtain ⟨ts2, hts2⟩ := ih (fun x hx => h x (by simp [hx])) (i + 1)
    refine ⟨t :: ts2, ?_⟩
    unfold loadTextsFrom
    rw [ht]
    dsimp only
    rw [hts2]
    rfl

theorem loadTextsFrom_none {entries : List Entry} {e : Entry}
    (hmem : e ∈ entries) (hnone : e.text = none) (i : Nat) :
    ∀ ts, loadTextsFrom entries i ≠ .ok ts := by
  induction entries generalizing i with
  | nil => simp at hmem
  | cons x rest ih =>
    intro ts hok
    unfold loadTextsFrom at hok
    rcases List.mem_cons.mp hmem with hx | hx
    · subst hx
      rw [hnone] at hok
      simp at hok
    · cases hxt : x.text with
      | none => rw [hxt] at hok; simp at hok
      | some t =>
        rw [hxt] at hok
        dsimp only at hok
        cases hr : loadTextsFrom rest (i + 1) with
        | error msg => rw [hr] at hok; simp [Except.map] at hok
        | ok ts2 => exact ih hx (i + 1) ts2 hr

theorem zipWith_get?_eq {α β γ : Type} (f : α → β → γ) {as : List α}
    {bs : List β} {i : Nat} {a : α} {b : β}
    (ha : as.get? i = some a) (hb : bs.get? i = some b) :
    (List.zipWith f as bs).get? i = some (f a b) := by
  induction as generalizing bs i with
  | nil => simp at ha
  | cons x xs ih =>
    cases bs with
    | nil => simp at hb
    | cons y ys =>
      cases i with
      | zero =>
        simp only [List.get?_cons_zero, Option.some.injEq] at ha hb
        subst ha
        subst hb
        simp [List.zipWith]
      | succ m =>
        simp only [List.get?_cons_succ] at ha hb
        simp only [List.zipWith, List.get?_cons_succ]
        exact ih ha hb

theorem mergeEntries_strs (es : List Entry) (vs : List String) :
    mergeEntries es (vs.map JVal.str) =
      .ok (List.zipWith (fun e v => { e with text := some v }) es vs) := by
  induction es generalizing vs with
  | nil => cases vs <;> simp [mergeEntries]
  | cons e rest ih =>
    cases vs with
    | nil => simp [mergeEntries]
    | cons v vr =>
      simp only [List.map_cons, List.zipWith]
      unfold mergeEntries
      dsimp only
      rw [ih vr]
      rfl

theorem mergeEntries_own {entries : List Entry} {i : Nat} {ts : List String}
    (h : loadTextsFrom entries i = .ok ts) :
    mergeEntries entries (ts.map JVal.str) = .ok entries := by
  induction entries generalizing i ts with
  | nil =>
    unfold loadTextsFrom at h
    simp only [Except.ok.injEq] at h
    subst h
    rfl
  | cons e rest ih =>
    unfold loadTextsFrom at h
    cases hx : e.text with
    | none => rw [hx] at h; simp at h
    | some t =>
      rw [hx] at h
      dsimp only at h
      cases hr : loadTextsFrom rest (i + 1) with
      | error msg => rw [hr] at h; simp [Except.map] at h
      | ok ts2 =>
        rw [hr] at h
        simp only [Except.map, Except.ok.injEq] at h
        subst h
        simp only [List.map_cons]
        unfold mergeEntries
        dsimp only
        rw [ih hr]
        have heq : ({ e with text := some t } : Entry) = e := by rw [← hx]
        rw [heq]
        rfl

theorem mergeEntries_all_str {es : List Entry} {vs : List JVal}
    (hlen : es.length = vs.length) :
    (∃ r, mergeEntries es vs = .ok r) ↔ ∀ v ∈ vs, v.isStr := by
  induction es generalizing vs with
  | nil =>
    cases vs with
    | nil => simp [mergeEntries]
    | cons v vr => simp at hlen
  | cons e rest ih =>
    cases vs with
    | nil => simp at hlen
    | cons v vr =>
      simp only [List.length_cons, Nat.succ.injEq] at hlen
      cases v with
      | str t =>
        unfold mergeEntries
        dsimp only
        constructor
        · rintro ⟨r, hr⟩
          intro w hw
          rcases List.mem_cons.mp hw with hw | hw
          · subst hw; trivial
          · cases hm : mergeEntries rest vr with
            | error msg => rw [hm] at hr; simp [Except.map] at hr
            | ok r2 =>
              exact ((ih hlen).mp ⟨r2, hm⟩) w hw
        · intro hall
          obtain ⟨r2, hr2⟩ := (ih hlen).mpr (fun w hw => hall w (by simp [hw]))
          exact ⟨{ e with text := some t } :: r2, by rw [hr2]; rfl⟩
      | other =>
        unfold mergeEntries
        dsimp only
        constructor
        · rintro ⟨r, hr⟩
          simp at hr
        · intro hall
          exact absurd (hall JVal.other (by simp)) (by simp [JVal.isStr])

/-- C1: Round-trip identity.  For a presentation satisfying the
python-pptx table-grid invariant (`tablesOk`), flattening its extracted
map, merging the map with those very values, and projecting the merged map
back onto the presentation all succeed, and the projected document's
extracted text map equals the original extraction (indeed the projected
document is the original one unchanged). -/
theorem round_trip_identity (src : String) (p : Presentation)
    (hwf : tablesOk p = true) :
    ∃ ts m2 p2,
      load_texts (build_text_map src p) = .ok ts ∧
      merge_translations (build_text_map src p) (ts.map JVal.str) = .ok m2 ∧
      apply_text_map p m2 = .ok p2 ∧
      build_text_map src p2 = build_text_map src p := by
  have hgood : ∀ e ∈ (build_text_map src p).entries, EntryGood p e :=
    fun e he => build_text_map_good he
  have hsome : ∀ e ∈ (build_text_map src p).entries, ∃ t, e.text = some t := by
    intro e he
    obtain ⟨⟨t, ht, _⟩, _⟩ := hgood e he
    exact ⟨t, ht⟩
  obtain ⟨ts, hts⟩ := loadTextsFrom_some hsome 1
  have htsmap : load_texts (build_text_map src p) = .ok ts := hts
  have hlen : (build_text_map src p).entries.length = ts.length := by
    have hmap := loadTextsFrom_ok hts
    have h2 := congrArg List.length hmap
    simpa using h2
  have hmerge : merge_translations (build_text_map src p) (ts.map JVal.str) =
      .ok (build_text_map src p) := by
    unfold merge_translations
    rw [if_pos (by simpa using hlen)]
    rw [mergeEntries_own hts]
    dsimp only [Except.map]
    unfold build_text_map
    dsimp only
  refine ⟨ts, build_text_map src p, p, htsmap, hmerge, ?_, rfl⟩
  unfold apply_text_map
  have hcnt : entryCountCheck (build_text_map src p) = .ok () := by
    unfold entryCountCheck build_text_map
    dsimp only
    rw [if_pos rfl]
  rw [hcnt]
  obtain ⟨c2, happ⟩ := applyEntries_good hgood hwf []
  rw [happ]

mutual

/-- The extractor's xpath-query log for one shape is exactly the chart
visits of that shape: one query per chart shape, none cached. -/
theorem walkShape_queries (p : Presentation) (s : Shape) (idx : Nat)
    (segs : List String) (chain : List Nat) (meta : SlideMeta) :
    (walkShape p s idx segs chain meta).2 = shapeChartVisits s := by
  have hrec : (walkList p s.children 1 (segs ++ [s!"shape[{idx}]"])
      (chain ++ [idx]) meta).2 = listChartVisits s.children :=
    walkList_queries p s.children 1 (segs ++ [s!"shape[{idx}]"])
      (chain ++ [idx]) meta
  obtain ⟨sid, snm, stype, tf, tab, ch, children⟩ := s
  simp only [Shape.children] at hrec
  unfold walkShape shapeChartVisits record_chart_text
  dsimp only [Shape.chart]
  by_cases hg : stype = ShapeType.group
  · cases ch <;> simp [hg, hrec]
  · cases ch <;> simp [hg]
termination_by sizeOf s
decreasing_by
  simp_wf
  exact sizeOf_children_lt s

/-- The extractor's xpath-query log for a shape sequence is the
concatenated per-shape chart-visit lists. -/
theorem walkList_queries (p : Presentation) (shapes : List Shape)
    (idx : Nat) (segs : List String) (chain : List Nat) (meta : SlideMeta) :
    (walkList p shapes idx segs chain meta).2 = listChartVisits shapes := by
  cases shapes with
  | nil => rfl
  | cons s rest =>
    unfold walkList listChartVisits
    dsimp only
    rw [walkShape_queries p s idx segs chain meta,
        walkList_queries p rest (idx + 1) segs chain meta]
termination_by sizeOf shapes
decreasing_by
  all_goals simp_wf
  all_goals omega

end

theorem slidesWalk_queries (p : Presentation) (slides : List Slide)
    (idx : Nat) :
    (slidesWalk p slides idx).2 = slidesChartVisits slides := by
  induction slides generalizing idx with
  | nil => rfl
  | cons sl rest ih =>
    unfold slidesWalk slidesChartVisits
    dsimp only
    rw [walkList_queries, ih]

/-- Each successful `apply_entry` call leaves the chart cache unchanged or
extends it by one partname that was not yet cached. -/
theorem apply_entry_cache {p : Presentation} {e : Entry} {c : List String}
    {p2 : Presentation} {c2 : List String}
    (h : apply_entry p e c = .ok (p2, c2)) :
    c2 = c ∨ ∃ pn, pn ∉ c ∧ c2 = c ++ [pn] := by
  unfold apply_entry at h
  by_cases h1 : e.slide_index < 1
  · rw [if_pos h1] at h; exact absurd h (by simp)
  · rw [if_neg h1] at h
    cases hsl : p.slides.get? (e.slide_index - 1) with
    | none => rw [hsl] at h; simp at h
    | some slide =>
      rw [hsl] at h
      dsimp only at h
      cases hre : resolve_shape slide e.shape_index_chain with
      | error msg => rw [hre] at h; simp at h
      | ok shape =>
        rw [hre] at h
        dsimp only at h
        by_cases hc1 : e.container = "text_frame"
        · rw [if_pos hc1] at h
          cases happ : apply_text_frame_entry shape e with
          | error m => rw [happ] at h; simp [Except.map] at h
          | ok sh2 =>
            rw [happ] at h
            simp only [Except.map, Except.ok.injEq, Prod.mk.injEq] at h
            exact Or.inl h.2.symm
        · rw [if_neg hc1] at h
          by_cases hc2 : e.container = "table_cell"
          · rw [if_pos hc2] at h
            cases happ : apply_table_cell_entry shape e with
            | error m => rw [happ] at h; simp [Except.map] at h
            | ok sh2 =>
              rw [happ] at h
              simp only [Except.map, Except.ok.injEq, Prod.mk.injEq] at h
              exact Or.inl h.2.symm
          · rw [if_neg hc2] at h
            by_cases hc3 : e.container = "chart_part"
            · rw [if_pos hc3] at h
              unfold apply_chart_entry at h
              cases hch : shape.chart with
              | none => rw [hch] at h; simp at h
              | some pn =>
                rw [hch] at h
                dsimp only at h
                cases hpn : e.chart_partname with
                | none => rw [hpn] at h; simp at h
                | some pnE =>
                  rw [hpn] at h
                  dsimp only at h
                  by_cases heq : pn = pnE
                  · rw [if_pos heq] at h
                    cases hci : e.chart_text_index with
                    | none => rw [hci] at h; simp at h
                    | some ci =>
                      rw [hci] at h
                      dsimp only at h
                      by_cases hb1 : 1 ≤ ci
                      · rw [if_pos hb1] at h
                        by_cases hb2 : ci ≤ (get_chart_nodes p pn c).1.length
                        · rw [if_pos hb2] at h
                          cases htx : e.text with
                          | none => rw [htx] at h; simp at h
                          | some t =>
                            rw [htx] at h
                            simp only [Except.ok.injEq, Prod.mk.injEq] at h
                            unfold get_chart_nodes at h
                            by_cases hin : pn ∈ c
                            · rw [if_pos hin] at h
                              exact Or.inl h.2.symm
                            · rw [if_neg hin] at h
                              exact Or.inr ⟨pn, hin, h.2.symm⟩
                        · rw [if_neg hb2] at h; simp at h
                      · rw [if_neg hb1] at h; simp at h
                  · rw [if_neg heq] at h; simp at h
            · rw [if_neg hc3] at h; simp at h

/-- The chart cache stays duplicate-free across the projector's entry
loop: a part already queried is never queried (hence never appended)
again. -/
theorem applyEntries_nodup {entries : List Entry} {p : Presentation}
    {c : List String} {p2 : Presentation} {c2 : List String}
    (h : applyEntries p entries c = .ok (p2, c2)) (hnd : c.Nodup) :
    c2.Nodup := by
  induction entries generalizing p c with
  | nil =>
    unfold applyEntries at h
    simp only [Except.ok.injEq, Prod.mk.injEq] at h
    rw [← h.2]
    exact hnd
  | cons e rest ih =>
    unfold applyEntries at h
    cases happ : apply_entry p e c with
    | error msg => rw [happ] at h; simp at h
    | ok pc =>
      rw [happ] at h
      dsimp only at h
      obtain ⟨pp, cc⟩ := pc
      rcases apply_entry_cache happ with hsame | ⟨pn, hnin, hext⟩
      · exact ih h (by rw [hsame]; exact hnd)
      · refine ih h ?_
        rw [hext]
        rw [List.nodup_append]
        exact ⟨hnd, List.nodup_singleton pn,
          by intro a ha hb; simp at hb; subst hb; exact hnin ha⟩

/-- The projector's entry loop distributes over list append. -/
theorem applyEntries_append (l1 l2 : List Entry) (p : Presentation)
    (c : List String) :
    applyEntries p (l1 ++ l2) c =
      match applyEntries p l1 c with
      | .error msg => .error msg
      | .ok pc => applyEntries pc.1 l2 pc.2 := by
  induction l1 generalizing p c with
  | nil => rfl
  | cons e rest ih =>
    have lhs_eq : applyEntries p (e :: (rest ++ l2)) c =
        match apply_entry p e c with
        | .error msg => .error msg
        | .ok pc => applyEntries pc.1 (rest ++ l2) pc.2 := rfl
    have rhs_eq : applyEntries p (e :: rest) c =
        match apply_entry p e c with
        | .error msg => .error msg
        | .ok pc => applyEntries pc.1 rest pc.2 := rfl
    rw [List.cons_append, lhs_eq, rhs_eq]
    cases happ : apply_entry p e c with
    | error msg => rfl
    | ok pc =>
      dsimp only
      exact ih pc.1 pc.2

theorem chainResolves_resolve {shapes : List Shape} {chain : List Nat}
    {s : Shape} (h : ChainResolves shapes chain s) :
    ∀ d, resolve_shape_list shapes chain d = .ok s := by
  induction h with
  | last h1 h2 => intro d; exact resolve_singleton h1 h2 d
  | step h1 h2 h3 hrec ih =>
    intro d
    exact resolve_cons h1 h2 h3 (by simp) (ih (d + 1))

/-- Resolution succeeds exactly on spec-conformant chains. -/
theorem resolve_iff_chain {shapes : List Shape} {chain : List Nat}
    {d : Nat} {s : Shape} :
    resolve_shape_list shapes chain d = .ok s ↔
      ChainResolves shapes chain s := by
  constructor
  · intro h
    induction chain generalizing shapes d with
    | nil => simp [resolve_shape_list] at h
    | cons i rest ih =>
      unfold resolve_shape_list at h
      by_cases hi : i < 1
      · simp [hi] at h
      · simp only [if_neg hi] at h
        cases hg : shapes.get? (i - 1) with
        | none => rw [hg] at h; exact absurd h (by simp)
        | some target =>
          rw [hg] at h
          dsimp only at h
          cases rest with
          | nil =>
            simp only [Except.ok.injEq] at h
            subst h
            exact ChainResolves.last (by omega) hg
          | cons j rest2 =>
            by_cases hgr : target.shape_type = ShapeType.group
            · simp only [if_pos hgr] at h
              exact ChainResolves.step (by omega) hg hgr (ih h)
            · simp [hgr] at h
  · intro h
    exact chainResolves_resolve h d

theorem round_trip_identity_witness :
    tablesOk wPres = true ∧
    (∃ ts m2 p2,
      load_texts (build_text_map "deck.pptx" wPres) = .ok ts ∧
      merge_translations (build_text_map "deck.pptx" wPres)
        (ts.map JVal.str) = .ok m2 ∧
      apply_text_map wPres m2 = .ok p2 ∧
      build_text_map "deck.pptx" p2 = build_text_map "deck.pptx" wPres) :=
  ⟨by decide, round_trip_identity "deck.pptx" wPres (by decide)⟩

/-- C2: merging a base map with equally many translated string values
succeeds; entry `i` of the result is entry `i` of the base with only its
`text` field replaced by value `i`, the top-level `source` and
`slide_count` are unchanged, and `entry_count` is the merged list's
length. -/
theorem merge_positional_fidelity (m : TextMap) (vs : List String)
    (hlen : vs.length = m.entries.length) :
    ∃ r, merge_translations m (vs.map JVal.str) = .ok r ∧
      r.entries.length = m.entries.length ∧
      (∀ i e v, m.entries.get? i = some e → vs.get? i = some v →
        r.entries.get? i = some { e with text := some v }) ∧
      r.source = m.source ∧ r.slide_count = m.slide_count ∧
      r.entry_count = some r.entries.length := by
  unfold merge_translations
  rw [if_pos (by simpa using hlen.symm)]
  rw [mergeEntries_strs]
  dsimp only [Except.map]
  refine ⟨_, rfl, ?_, ?_, rfl, rfl, rfl⟩
  · simp only [List.length_zipWith]
    omega
  · intro i e v he hv
    exact zipWith_get?_eq _ he hv

theorem merge_positional_fidelity_witness :
    (["Bonjour", "Monde"] : List String).length = wMap.entries.length ∧
    (∃ r, merge_translations wMap
        ((["Bonjour", "Monde"] : List String).map JVal.str) = .ok r ∧
      r.entries.length = wMap.entries.length ∧
      (∀ i e v, wMap.entries.get? i = some e →
        (["Bonjour", "Monde"] : List String).get? i = some v →
        r.entries.get? i = some { e with text := some v }) ∧
      r.source = wMap.source ∧ r.slide_count = wMap.slide_count ∧
      r.entry_count = some r.entries.length) :=
  ⟨by decide, merge_positional_fidelity wMap ["Bonjour", "Monde"] (by decide)⟩

theorem entry_count_consumers_cex :
    wMapBadCount.entry_count = some 5 ∧
    wMapBadCount.entries.length = 1 ∧
    merge_translations wMapBadCount [JVal.str "Bonjour"] = .ok wMergedBad ∧
    load_texts wMapBadCount = .ok ["Hello"] :=
  ⟨rfl, rfl, by decide, by decide⟩

/-- C3 (amended): only the projector validates `entry_count`, and only
when the field is present — a present mismatching count aborts
`apply_text_map` before any entry is applied; `merge_translations` and
`load_texts` never consult `entry_count` at all. -/
theorem entry_count_validation_amended :
    (∀ (p : Presentation) (m : TextMap) (k : Nat),
      m.entry_count = some k → k ≠ m.entries.length →
      apply_text_map p m =
        .error "entry_count does not match actual number of entries") ∧
    (∀ (m : TextMap) (vs : List JVal) (c : Option Nat),
      merge_translations { m with entry_count := c } vs =
        merge_translations m vs) ∧
    (∀ (m : TextMap) (c : Option Nat),
      load_texts { m with entry_count := c } = load_texts m) := by
  refine ⟨?_, ?_, ?_⟩
  · intro p m k hk hne
    unfold apply_text_map entryCountCheck
    rw [hk]
    dsimp only
    rw [if_neg hne]
  · intro m vs c
    cases m with
    | mk src slc cnt entries => rfl
  · intro m c
    cases m with
    | mk src slc cnt entries => rfl

theorem entry_count_validation_amended_witness :
    apply_text_map wPres wMapBadCount =
      .error "entry_count does not match actual number of entries" ∧
    merge_translations { wMap with entry_count := some 99 } [] =
      merge_translations wMap [] ∧
    load_texts { wMap with entry_count := some 99 } = load_texts wMap :=
  ⟨entry_count_validation_amended.1 wPres wMapBadCount 5 rfl (by decide),
   entry_count_validation_amended.2.1 wMap [] (some 99),
   entry_count_validation_amended.2.2 wMap (some 99)⟩

theorem chart_cache_extraction_cex :
    wShapeChart.chart = some "/ppt/charts/chart1.xml" ∧
    wShapeChart2.chart = some "/ppt/charts/chart1.xml" ∧
    build_text_map_queries wPresDup =
      ["/ppt/charts/chart1.xml", "/ppt/charts/chart1.xml"] ∧
    ¬ (build_text_map_queries wPresDup).Nodup :=
  ⟨rfl, rfl, by decide, by decide⟩

/-- C4 (amended): during extraction there is no per-part cache — the
extractor's xpath-query log holds one query per chart shape visited, in
traversal order, so a part referenced by several shapes is queried once
per shape; during projection, `get_chart_nodes` caches by partname, so the
cache (which records exactly the queried partnames, in query order) never
holds a partname twice. -/
theorem chart_cache_amended :
    (∀ p : Presentation,
      build_text_map_queries p = chartShapeVisitParts p) ∧
    (∀ (p : Presentation) (entries : List Entry) (d : Presentation)
        (c : List String),
      applyEntries p entries [] = .ok (d, c) → c.Nodup) := by
  refine ⟨?_, ?_⟩
  · intro p
    unfold build_text_map_queries chartShapeVisitParts
    exact slidesWalk_queries p p.slides 1
  · intro p entries d c h
    exact applyEntries_nodup h (List.nodup_nil)

theorem chart_cache_amended_witness :
    build_text_map_queries wPresDup = chartShapeVisitParts wPresDup ∧
    (["/ppt/charts/chart1.xml"] : List String).Nodup :=
  ⟨chart_cache_amended.1 wPresDup,
   chart_cache_amended.2 wPres (build_text_map "deck.pptx" wPres).entries
     wPres ["/ppt/charts/chart1.xml"] (by decide)⟩

/-- C5: an extracted run entry exists exactly for the non-empty runs, and
its recorded `paragraph_index` / `run_index` are the run's true 1-based
positions in the paragraph sequence (empty runs emit nothing but still
occupy their position, so a non-empty run after an empty one keeps its
actual index). -/
theorem empty_run_skipping (tf : TextFrame) (b : BaseEntry)
    (segs : List String) (cont : String) (extra : Option (Nat × Nat))
    (e : Entry) :
    e ∈ record_runs tf b segs cont extra ↔
    ∃ pj para rj run,
      tf.paragraphs.get? pj = some para ∧ para.runs.get? rj = some run ∧
      run.text ≠ "" ∧
      e = mkRunEntry b extra cont (pj + 1) (rj + 1)
            (String.intercalate "."
              (segs ++ [cont] ++ [s!"paragraph[{pj + 1}]"] ++ [s!"run[{rj + 1}]"]))
            run.text :=
  mem_record_runs

/-- C10: every entry of an extracted text map carries a non-empty text
value — for text-frame runs, table-cell runs and chart text nodes alike. -/
theorem extraction_text_nonempty (src : String) (p : Presentation)
    (e : Entry) (he : e ∈ (build_text_map src p).entries) :
    ∃ t, e.text = some t ∧ t ≠ "" :=
  (build_text_map_good he).1

theorem extraction_text_nonempty_witness :
    ∃ t, wEntry.text = some t ∧ t ≠ "" :=
  extraction_text_nonempty "deck.pptx" wPres wEntry (by decide)

/-- C6: the projector is atomic — `apply_text_map` produces an output
document iff the `entry_count` check and every single entry application
succeed, and whenever some entry fails after a successfully applied
prefix, the whole projection returns that entry's error (so no output
document is saved). -/
theorem projector_atomicity (p : Presentation) (m : TextMap) :
    (∀ d, apply_text_map p m = .ok d ↔
      (entryCountCheck m = .ok () ∧
       ∃ c, applyEntries p m.entries [] = .ok (d, c))) ∧
    (∀ l1 e l2 d1 c1 msg, m.entries = l1 ++ e :: l2 →
      entryCountCheck m = .ok () →
      applyEntries p l1 [] = .ok (d1, c1) →
      apply_entry d1 e c1 = .error msg →
      apply_text_map p m = .error msg) := by
  refine ⟨?_, ?_⟩
  · intro d
    unfold apply_text_map
    cases hc : entryCountCheck m with
    | error msg =>
      dsimp only
      constructor
      · intro h
        exact absurd h (by simp)
      · rintro ⟨h1, hrest⟩
        exact absurd h1 (by simp)
    | ok u =>
      dsimp only
      cases hap : applyEntries p m.entries [] with
      | error msg =>
        dsimp only
        constructor
        · intro h
          exact absurd h (by simp)
        · rintro ⟨h1, c, h2⟩
          exact absurd h2 (by simp)
      | ok pc =>
        dsimp only
        constructor
        · intro h
          simp only [Except.ok.injEq] at h
          refine ⟨rfl, pc.2, ?_⟩
          rw [← h]
        · rintro ⟨h1, c, h2⟩
          simp only [Except.ok.injEq] at h2
          rw [h2]
  · intro l1 e l2 d1 c1 msg hsplit hcnt hpre hfail
    unfold apply_text_map
    rw [hcnt]
    dsimp only
    rw [hsplit, applyEntries_append, hpre]
    dsimp only
    unfold applyEntries
    rw [hfail]

theorem projector_atomicity_witness :
    apply_text_map wPres wBadMap = .error "slide_index out of range" :=
  (projector_atomicity wPres wBadMap).2 [] wBadEntry [] wPres []
    "slide_index out of range" rfl (by decide) (by decide) (by decide)

/-- C7: shape-chain resolution succeeds exactly when every chain element
is a 1-based in-range index, every non-final element resolves to a GROUP
shape that is descended into, and the final element yields the target;
a non-final element resolving to a non-group shape is a structural
mismatch error, never a silent skip. -/
theorem resolve_shape_chain_spec (slide : Slide) (chain : List Nat) :
    (∀ s, resolve_shape slide chain = .ok s ↔
      ChainResolves slide.shapes chain s) ∧
    (∀ i rest t, chain = i :: rest → rest ≠ [] → 1 ≤ i →
      slide.shapes.get? (i - 1) = some t →
      t.shape_type ≠ ShapeType.group →
      resolve_shape slide chain =
        .error "Intermediate shape must be a group") := by
  refine ⟨fun s => resolve_iff_chain, ?_⟩
  intro i rest t hchain hne hi hget hng
  subst hchain
  unfold resolve_shape resolve_shape_list
  rw [if_neg (by omega), hget]
  dsimp only
  cases rest with
  | nil => exact absurd rfl hne
  | cons j r2 => rw [if_neg hng]

theorem resolve_shape_chain_spec_witness :
    resolve_shape wSlide1 [1, 1] =
      .error "Intermediate shape must be a group" ∧
    ChainResolves wSlide1.shapes [2, 1] wShapeText :=
  ⟨(resolve_shape_chain_spec wSlide1 [1, 1]).2 1 [1] wShapeText rfl
     (by decide) (by decide) (by decide) (by decide),
   ((resolve_shape_chain_spec wSlide1 [2, 1]).1 wShapeText).mp (by decide)⟩

theorem merge_fails_iff_cex :
    ([JVal.other] : List JVal).length = wMap1.entries.length ∧
    merge_translations wMap1 [JVal.other] =
      .error "translated value must be a string" :=
  ⟨by decide, by decide⟩

/-- C8 (amended): `merge_translations` succeeds iff the translated-values
list has exactly as many elements as the base map has entries AND every
value is a string; on a length mismatch it fails with the descriptive
count-mismatch message naming both counts (and, being a pure function
returning a single result, it can produce no partial, truncated or padded
output). -/
theorem merge_failure_amended (m : TextMap) (vs : List JVal) :
    ((∃ r, merge_translations m vs = .ok r) ↔
      (vs.length = m.entries.length ∧ ∀ v ∈ vs, v.isStr)) ∧
    (vs.length ≠ m.entries.length →
      merge_translations m vs =
        .error s!"translated array must match entries length; {m.entries.length} entries != {vs.length} translated items") := by
  constructor
  · by_cases hlen : m.entries.length = vs.length
    · unfold merge_translations
      rw [if_pos hlen]
      constructor
      · rintro ⟨r, hr⟩
        cases hm : mergeEntries m.entries vs with
        | error msg => rw [hm] at hr; simp [Except.map] at hr
        | ok es => exact ⟨hlen.symm, (mergeEntries_all_str hlen).mp ⟨es, hm⟩⟩
      · rintro ⟨h1, h2⟩
        obtain ⟨es, hes⟩ := (mergeEntries_all_str hlen).mpr h2
        exact ⟨_, by rw [hes]; rfl⟩
    · unfold merge_translations
      rw [if_neg hlen]
      constructor
      · rintro ⟨r, hr⟩
        simp at hr
      · rintro ⟨h1, _⟩
        exact absurd h1.symm hlen
  · intro hne
    unfold merge_translations
    rw [if_neg (fun h => hne h.symm)]

theorem merge_failure_amended_witness :
    merge_translations wMap [] =
      .error "translated array must match entries length; 2 entries != 0 translated items" ∧
    (∃ r, merge_translations wMap [JVal.str "Bonjour", JVal.str "Monde"] =
      .ok r) :=
  ⟨(merge_failure_amended wMap []).2 (by decide),
   ((merge_failure_amended wMap
      [JVal.str "Bonjour", JVal.str "Monde"]).1).mpr ⟨by decide, by decide⟩⟩

/-- C9: `load_texts` succeeds exactly when every entry carries a `text`
field, and on success it returns the text values in entry order, with
output length equal to the entry count. -/
theorem flatten_spec (m : TextMap) :
    ((∃ ts, load_texts m = .ok ts) ↔
      ∀ e ∈ m.entries, (Entry.text e).isSome) ∧
    (∀ ts, load_texts m = .ok ts →
      ts.length = m.entries.length ∧
      m.entries.map Entry.text = ts.map some) := by
  constructor
  · constructor
    · rintro ⟨ts, hts⟩
      intro e he
      have hmap := loadTextsFrom_ok hts
      have hmem : e.text ∈ m.entries.map Entry.text :=
        List.mem_map_of_mem _ he
      rw [hmap] at hmem
      obtain ⟨t, _, hteq⟩ := List.mem_map.mp hmem
      rw [← hteq]
      simp
    · intro hall
      have hsome : ∀ e ∈ m.entries, ∃ t, e.text = some t := by
        intro e he
        cases hx : e.text with
        | none =>
          have := hall e he
          rw [hx] at this
          exact absurd this (by simp)
        | some t => exact ⟨t, rfl⟩
      exact loadTextsFrom_some hsome 1
  · intro ts hts
    have hmap := loadTextsFrom_ok hts
    refine ⟨?_, hmap⟩
    have hl := congrArg List.length hmap
    simp only [List.length_map] at hl
    exact hl.symm

theorem flatten_spec_witness :
    (["Hello", "World"] : List String).length = wMap.entries.length ∧
    wMap.entries.map Entry.text = (["Hello", "World"] : List String).map some :=
  (flatten_spec wMap).2 ["Hello", "World"] (by decide)
